import Mathlib

/-!
# combined_analysis.cpp: Newton-Raphson, centred differences and Romberg integration

Shallow embedding of `src/combined_analysis.cpp`.

* `double` is read as exact arithmetic in a linear ordered field `α` (the theorems
  instantiate it with `ℝ`, the executable checks with `ℚ`): rounding, overflow to
  `inf`/`NaN` and underflow are not modelled, so a theorem below speaks of the binary64
  program only as far as its statement survives them.  The one exception is the quotient
  `c2 / c1` of `main`, which `main_v_opt_with` takes as a parameter and `machine_quot`
  gives with its underflow to zero.  Division keeps the
  field convention `x / 0 = 0`; the only divisors the source does not guard itself
  are `n` in `trapezoidal_solver` and `12 * h` in `high_accuracy_diff`, and every
  theorem about them has `1 ≤ n` or `n < 0`, respectively `h ≠ 0`.
* `int` loop counters are natural numbers counting the remaining iterations together
  with the running index; `1 << i` is the 32-bit two's-complement shift `shl1`.
* The `bool& converged` out-parameter is the second component of the returned pair.
* The Romberg table `std::vector<std::vector<double>>` is a `Table` with checked
  reads and writes; an access outside the table yields `none`.
* `std::pow(x, 0.25)`, `std::sin` and `M_PI` are parameters of the definitions that
  use them, so the definitions stay executable.
* Two instrumented copies of source loops serve the claims about the course of a run:
  `newtonTrace` records the iterates and the exit of the Newton loop
  (`newtonTrace_refines` ties it to `newtonLoop`), and `romberg_solver_checked` faults on
  an out-of-range access, a read of a cell not yet written, a trapezoid call with `n < 1`
  or a zero divisor (`romberg_solver_safe` ties it to `romberg_solver`).
-/

namespace CombinedAnalysis

variable {α : Type} [LinearOrderedField α]

/-! ## Root finding -/

/-- Source lines 33-36: `f(v) = 2*c1*v - 2*c2*v^-3`, with the sentinel `1e12` for `v <= 1e-9`. -/
def f_drone (v c1 c2 : α) : α :=
  if v ≤ 1e-9 then 1e12
  else 2.0 * c1 * v - (2.0 * c2 / (v * v * v))

/-- Source lines 39-42: `f'(v) = 2*c1 + 6*c2*v^-4`, with the sentinel `1e12` for `v <= 1e-9`. -/
def df_drone (v c1 c2 : α) : α :=
  if v ≤ 1e-9 then 1e12
  else 2.0 * c1 + (6.0 * c2 / (v * v * v * v))

/-- Source lines 48-63: the `for` loop of `newton_raphson_solver`; the first argument is the
number of iterations still to run, the result is `(returned value, converged)`. -/
def newtonLoop (c1 c2 tolerance : α) : Nat → α → α × Bool
  | 0, v_current => (v_current, false)
  | remaining + 1, v_current =>
    let f_val := f_drone v_current c1 c2
    let df_val := df_drone v_current c1 c2
    if |df_val| < 1e-10 then (v_current, false)
    else
      let v_next := v_current - f_val / df_val
      if v_next ≤ 0 then (v_current, false)
      else if |v_next - v_current| < tolerance then (v_next, true)
      else newtonLoop c1 c2 tolerance remaining v_next

/-- Source lines 45-64: `newton_raphson_solver`; `iter` runs over `0 .. max_iter - 1`, that is
`max_iter.toNat` iterations (none when `max_iter <= 0`). -/
def newton_raphson_solver (c1 c2 v0 tolerance : α) (max_iter : Int) : α × Bool :=
  newtonLoop c1 c2 tolerance max_iter.toNat v0

/-! ## Power model, differentiation, trapezoid -/

/-- Source lines 70-73: `P(v) = c1*v^3 + c2/v`, and `0` for `v <= 1e-9`. -/
def power_consumption (v c1 c2 : α) : α :=
  if v ≤ 1e-9 then 0
  else c1 * v ^ 3 + c2 / v

/-- Source lines 76-80: the centred four-point difference quotient. -/
def high_accuracy_diff (f : α → α) (x h : α) : α :=
  let f_xp1 := f (x + h)
  let f_xm1 := f (x - h)
  let f_xp2 := f (x + 2 * h)
  let f_xm2 := f (x - 2 * h)
  (-f_xp2 + 8 * f_xp1 - 8 * f_xm1 + f_xm2) / (12 * h)

/-- Source line 86: `for (int i = 1; i < n; i++) sum += f(a + i * h)`; the first argument is the
number of iterations still to run, `i` the running index. -/
def trapLoop (f : α → α) (a h : α) : Nat → Int → α → α
  | 0, _, sum => sum
  | remaining + 1, i, sum => trapLoop f a h remaining (i + 1) (sum + f (a + (i : α) * h))

/-- Source lines 83-88: the composite trapezoidal rule; the loop runs for `i = 1 .. n - 1`,
that is `(n - 1).toNat` times. -/
def trapezoidal_solver (f : α → α) (a b : α) (n : Int) : α :=
  let h := (b - a) / (n : α)
  let sum := 0.5 * (f a + f b)
  h * trapLoop f a h (n - 1).toNat 1 sum

/-! ## Romberg integration -/

/-- The `int` expression `1 << i` of source line 93: for `i <= 31` the 32-bit
two's-complement value of `2^i` (so `1 << 31` is `-2^31`); a shift count of 32 or more
has no defined value. -/
def shl1 (i : Nat) : Option Int :=
  if i < 32 then some ((2 ^ i + 2 ^ 31) % 2 ^ 32 - 2 ^ 31) else none

/-- The square table `I` of source line 92: `dim` rows of `dim` cells. -/
structure Table (α : Type) where
  /-- Number of rows and of columns. -/
  dim : Nat
  /-- Content of the cell in a given row and column. -/
  cell : Nat → Nat → α

/-- Read `I[j][k]`; `none` outside the table. -/
def Table.get (I : Table α) (j k : Int) : Option α :=
  if 0 ≤ j ∧ j < I.dim ∧ 0 ≤ k ∧ k < I.dim then some (I.cell j.toNat k.toNat) else none

/-- Write `I[j][k] = x`; `none` outside the table. -/
def Table.set (I : Table α) (j k : Int) (x : α) : Option (Table α) :=
  if 0 ≤ j ∧ j < I.dim ∧ 0 ≤ k ∧ k < I.dim then
    some ⟨I.dim, fun r c => if r = j.toNat ∧ c = k.toNat then x else I.cell r c⟩
  else none

/-- Source line 93: `for (int i = 0; i < max_iter; i++) I[i][0] = trapezoidal_solver(f, a, b, 1 << i)`;
first argument: iterations still to run, second: the running `i`. -/
def rombergInit (f : α → α) (a b : α) : Nat → Nat → Table α → Option (Table α)
  | 0, _, I => some I
  | remaining + 1, i, I =>
    match shl1 i with
    | none => none
    | some n =>
      match I.set i 0 (trapezoidal_solver f a b n) with
      | none => none
      | some I1 => rombergInit f a b remaining (i + 1) I1

/-- Source lines 95-97: the inner loop over `j` for a fixed column `k`;
first argument: iterations still to run, second: the running `j`. -/
def rombergRow (k : Nat) : Nat → Nat → Table α → Option (Table α)
  | 0, _, I => some I
  | remaining + 1, j, I =>
    match I.get ((j : Int) + 1) ((k : Int) - 1), I.get j ((k : Int) - 1) with
    | some x, some y =>
      match I.set j k (((4 : α) ^ k * x - y) / ((4 : α) ^ k - 1.0)) with
      | none => none
      | some I1 => rombergRow k remaining (j + 1) I1
    | _, _ => none

/-- Source lines 94-98: the outer loop over `k`; the inner loop runs for
`j = 0 .. max_iter - k - 1`. First argument: iterations still to run, second: the running `k`. -/
def rombergCols (max_iter : Int) : Nat → Nat → Table α → Option (Table α)
  | 0, _, I => some I
  | remaining + 1, k, I =>
    match rombergRow k (max_iter - (k : Int)).toNat 0 I with
    | none => none
    | some I1 => rombergCols max_iter remaining (k + 1) I1

/-- Source lines 91-100: `romberg_solver`. A negative `max_iter` cannot size the table. -/
def romberg_solver (f : α → α) (a b : α) (max_iter : Int) : Option α :=
  if max_iter < 0 then none
  else
    match rombergInit f a b max_iter.toNat 0 ⟨max_iter.toNat, fun _ _ => 0.0⟩ with
    | none => none
    | some I1 =>
      match rombergCols max_iter (max_iter - 1).toNat 1 I1 with
      | none => none
      | some I2 => I2.get 0 (max_iter - 1)

/-- Source line 91: the default value of `max_iter`, the one `main` uses. -/
def romberg_default_max_iter : Int := 6

/-! ## The per-case orchestration in `main` -/

/-- Source lines 138-145: the `v_opt` that `main` hands to the later stages, given the pair
returned by the solver and the value `v_analytical`. -/
def select_v_opt (solved : α × Bool) (v_analytical : α) : α :=
  if !solved.2 then v_analytical else solved.1

/-- Source lines 138-145: stage 1 of `main`; `pow` stands for `std::pow`. -/
def main_v_opt (pow : α → α → α) (c1 c2 v0 tol : α) (max_iter : Int) : α :=
  let solved := newton_raphson_solver c1 c2 v0 tol max_iter
  let v_analytical := pow (c2 / c1) 0.25
  select_v_opt solved v_analytical

/-- The `double` quotient `x / y` as far as underflow to zero goes: a quotient of magnitude at
most `2^-1075`, half the least positive binary64 value, is rounded to zero; any other quotient
is kept exact. -/
def machine_quot (x y : α) : α :=
  if |x / y| ≤ 1 / 2 ^ 1075 then 0 else x / y

/-- Source lines 138-145 as `main_v_opt`, with the quotient of line 140 also a parameter:
`quot c2 c1` stands for the `double` expression `c2 / c1`. -/
def main_v_opt_with (quot pow : α → α → α) (c1 c2 v0 tol : α) (max_iter : Int) : α :=
  let solved := newton_raphson_solver c1 c2 v0 tol max_iter
  let v_analytical := pow (quot c2 c1) 0.25
  select_v_opt solved v_analytical

/-- Source line 167. -/
def v_maneuver_awal : α := 1.0

/-- Source line 168. -/
def T_maneuver : α := 10.0

/-- Source lines 170-173: the velocity ramp; `sin` and `pi` stand for `std::sin` and `M_PI`. -/
def velocity_maneuver (sin : α → α) (pi v_opt t : α) : α :=
  let sin_term := sin ((pi * t) / (2.0 * T_maneuver))
  v_maneuver_awal + (v_opt - v_maneuver_awal) * sin_term * sin_term

/-- Source lines 174-176. -/
def power_maneuver_time (sin : α → α) (pi c1 c2 v_opt t : α) : α :=
  power_consumption (velocity_maneuver sin pi v_opt t) c1 c2

/-- Source line 181: `romberg_solver(power_maneuver_time, 0, T_maneuver)`. -/
def energy_romberg (sin : α → α) (pi c1 c2 v_opt : α) : Option α :=
  romberg_solver (power_maneuver_time sin pi c1 c2 v_opt) 0 T_maneuver romberg_default_max_iter

/-! ## Reference recursion used in the proofs -/

/-- Richardson recursion over a first column `T`: `rombergRef T j k` is the value the table
holds in row `j`, column `k`. -/
def rombergRef (T : Nat → α) : Nat → Nat → α
  | j, 0 => T j
  | j, k + 1 =>
    ((4 : α) ^ (k + 1) * rombergRef T (j + 1) k - rombergRef T j k) / ((4 : α) ^ (k + 1) - 1.0)

/-- The value of `1 << i` for `i <= 31`, as an integer. -/
def shlVal (i : Nat) : Int := (2 ^ i + 2 ^ 31) % 2 ^ 32 - 2 ^ 31

/-! ## The Newton loop with its iterates and its exit recorded -/

/-- The four ways out of `newton_raphson_solver`: source line 52 (derivative below `1e-10`),
line 55 (`v_next <= 0`), lines 57-60 (step below the tolerance), line 63 (loop ran out). -/
inductive NewtonExit where
  | stationary
  | nonPhysical
  | converged
  | exhausted
  deriving DecidableEq

/-- Source lines 48-63 once more, recording what `newtonLoop` forgets: the successive values of
`v_current` (followed by the accepted `v_next` when the step test succeeds) and the exit taken.
The last recorded value is the value returned. -/
def newtonTrace (c1 c2 tolerance : α) : Nat → α → List α × NewtonExit
  | 0, v_current => ([v_current], NewtonExit.exhausted)
  | remaining + 1, v_current =>
    let f_val := f_drone v_current c1 c2
    let df_val := df_drone v_current c1 c2
    if |df_val| < 1e-10 then ([v_current], NewtonExit.stationary)
    else
      let v_next := v_current - f_val / df_val
      if v_next ≤ 0 then ([v_current], NewtonExit.nonPhysical)
      else if |v_next - v_current| < tolerance then ([v_current, v_next], NewtonExit.converged)
      else
        (v_current :: (newtonTrace c1 c2 tolerance remaining v_next).1,
          (newtonTrace c1 c2 tolerance remaining v_next).2)

/-! ## Romberg integration with every access checked -/

/-- What can go wrong in `romberg_solver`. -/
inductive RombergFault where
  | negativeSize
  | outOfBounds
  | unwrittenRead
  | undefinedShift
  | badSubintervals
  | zeroDivisor
  deriving DecidableEq

/-- Read `I[j][k]` in a table whose cells remember whether the loops have written them
(`none`: not yet written). -/
def Table.readWritten (I : Table (Option α)) (j k : Int) : Except RombergFault α :=
  match I.get j k with
  | none => Except.error RombergFault.outOfBounds
  | some none => Except.error RombergFault.unwrittenRead
  | some (some x) => Except.ok x

/-- Write `I[j][k] = x` and mark the cell as written. -/
def Table.write (I : Table (Option α)) (j k : Int) (x : α) :
    Except RombergFault (Table (Option α)) :=
  match I.set j k (some x) with
  | none => Except.error RombergFault.outOfBounds
  | some I1 => Except.ok I1

/-- Source line 93, as `rombergInit`, checking in addition that `trapezoidal_solver` receives
`n >= 1`. -/
def rombergInitChecked (f : α → α) (a b : α) :
    Nat → Nat → Table (Option α) → Except RombergFault (Table (Option α))
  | 0, _, I => Except.ok I
  | remaining + 1, i, I =>
    match shl1 i with
    | none => Except.error RombergFault.undefinedShift
    | some n =>
      if n < 1 then Except.error RombergFault.badSubintervals
      else
        match I.write i 0 (trapezoidal_solver f a b n) with
        | Except.error e => Except.error e
        | Except.ok I1 => rombergInitChecked f a b remaining (i + 1) I1

/-- Source lines 95-97, as `rombergRow`, checking in addition that both cells read were written
before and that the divisor `4^k - 1` is not zero. -/
def rombergRowChecked (k : Nat) :
    Nat → Nat → Table (Option α) → Except RombergFault (Table (Option α))
  | 0, _, I => Except.ok I
  | remaining + 1, j, I =>
    match I.readWritten ((j : Int) + 1) ((k : Int) - 1), I.readWritten j ((k : Int) - 1) with
    | Except.ok x, Except.ok y =>
      if (4 : α) ^ k - 1.0 = 0 then Except.error RombergFault.zeroDivisor
      else
        match I.write j k (((4 : α) ^ k * x - y) / ((4 : α) ^ k - 1.0)) with
        | Except.error e => Except.error e
        | Except.ok I1 => rombergRowChecked k remaining (j + 1) I1
    | Except.error e, _ => Except.error e
    | Except.ok _, Except.error e => Except.error e

/-- Source lines 94-98, as `rombergCols`, over the checked inner loop. -/
def rombergColsChecked (max_iter : Int) :
    Nat → Nat → Table (Option α) → Except RombergFault (Table (Option α))
  | 0, _, I => Except.ok I
  | remaining + 1, k, I =>
    match rombergRowChecked k (max_iter - (k : Int)).toNat 0 I with
    | Except.error e => Except.error e
    | Except.ok I1 => rombergColsChecked max_iter remaining (k + 1) I1

/-- Source lines 91-100, as `romberg_solver`, with every access checked. -/
def romberg_solver_checked (f : α → α) (a b : α) (max_iter : Int) : Except RombergFault α :=
  if max_iter < 0 then Except.error RombergFault.negativeSize
  else
    match rombergInitChecked f a b max_iter.toNat 0 ⟨max_iter.toNat, fun _ _ => none⟩ with
    | Except.error e => Except.error e
    | Except.ok I1 =>
      match rombergColsChecked max_iter (max_iter - 1).toNat 1 I1 with
      | Except.error e => Except.error e
      | Except.ok I2 => I2.readWritten 0 (max_iter - 1)

/-! ## The Richardson recurrence as the specification states it -/

/-- The reference recursion in the words of the specification:
`R(j,0) = trapezoidal_solver(f, a, b, 2^j)` and
`R(j,k) = (4^k * R(j+1,k-1) - R(j,k-1)) / (4^k - 1)` for `k >= 1`. -/
def rombergSpec (f : α → α) (a b : α) : Nat → Nat → α
  | j, 0 => trapezoidal_solver f a b (2 ^ j)
  | j, k + 1 =>
    ((4 : α) ^ (k + 1) * rombergSpec f a b (j + 1) k - rombergSpec f a b j k)
      / ((4 : α) ^ (k + 1) - 1)

/-! ## Basic facts about the guarded functions -/

theorem pos_of_gt_eps (v : α) (hv : 1e-9 < v) : 0 < v :=
  lt_trans (by norm_num) hv

theorem f_drone_of_gt (v c1 c2 : α) (hv : 1e-9 < v) :
    f_drone v c1 c2 = 2 * c1 * v - 2 * c2 / (v * v * v) := by
  have h2 : (2.0 : α) = 2 := by norm_num
  simp [f_drone, not_le.2 hv, h2]

theorem df_drone_of_gt (v c1 c2 : α) (hv : 1e-9 < v) :
    df_drone v c1 c2 = 2 * c1 + 6 * c2 / (v * v * v * v) := by
  have h2 : (2.0 : α) = 2 := by norm_num
  have h6 : (6.0 : α) = 6 := by norm_num
  simp [df_drone, not_le.2 hv, h2, h6]

/-- At a point `r` above the guard with `c2 = c1 * r^4` the target function vanishes. -/
theorem f_drone_root (r c1 : α) (hr : 1e-9 < r) : f_drone r c1 (c1 * r ^ 4) = 0 := by
  have hr0 : 0 < r := pos_of_gt_eps r hr
  rw [f_drone_of_gt _ _ _ hr]
  field_simp
  ring

/-- Above the guard, a zero of the target function has `c1 * v^4 = c2`. -/
theorem f_drone_zero_imp (v c1 c2 : α) (hv : 1e-9 < v) (h : f_drone v c1 c2 = 0) :
    c1 * v ^ 4 = c2 := by
  have hv0 : 0 < v := pos_of_gt_eps v hv
  rw [f_drone_of_gt _ _ _ hv] at h
  field_simp at h
  linear_combination h / 2

theorem rpow_quarter_pow_four (x : ℝ) (hx : 0 ≤ x) : (x ^ ((1 : ℝ) / 4)) ^ 4 = x := by
  rw [← Real.rpow_natCast, ← Real.rpow_mul hx]
  norm_num

theorem coeff_eq_of_root (c1 c2 : ℝ) (h1 : 0 < c1) (h2 : 0 < c2) :
    c2 = c1 * ((c2 / c1) ^ ((1 : ℝ) / 4)) ^ 4 := by
  rw [rpow_quarter_pow_four _ (le_of_lt (div_pos h2 h1))]
  field_simp

/-- One pass through the body of the Newton loop. -/
theorem newtonLoop_succ (c1 c2 tol : α) (k : Nat) (v : α) :
    newtonLoop c1 c2 tol (k + 1) v =
      if |df_drone v c1 c2| < 1e-10 then (v, false)
      else if v - f_drone v c1 c2 / df_drone v c1 c2 ≤ 0 then (v, false)
      else if |v - f_drone v c1 c2 / df_drone v c1 c2 - v| < tol then
        (v - f_drone v c1 c2 / df_drone v c1 c2, true)
      else newtonLoop c1 c2 tol k (v - f_drone v c1 c2 / df_drone v c1 c2) := rfl

/-- One iteration started exactly at the root, with a derivative that passes the guard. -/
theorem newtonLoop_at_root (c1 v0 tol : α) (k : Nat) (hc : 1e-10 ≤ 8 * c1)
    (hv : 1e-9 < v0) (ht : 0 < tol) :
    newtonLoop c1 (c1 * v0 ^ 4) tol (k + 1) v0 = (v0, true) := by
  have hv0 : 0 < v0 := pos_of_gt_eps v0 hv
  have hf : f_drone v0 c1 (c1 * v0 ^ 4) = 0 := f_drone_root v0 c1 hv
  have hd : df_drone v0 c1 (c1 * v0 ^ 4) = 8 * c1 := by
    rw [df_drone_of_gt _ _ _ hv]
    field_simp
    ring
  have hpos : (0 : α) < 8 * c1 := lt_of_lt_of_le (by norm_num) hc
  simp only [newtonLoop_succ, hf, hd, zero_div, sub_zero, sub_self, abs_zero, ht, if_true,
    not_le.2 hv0, if_false, abs_of_pos hpos, not_lt.2 hc]

/-- The trapezoid loop over the identity integrand on a grid starting at `0`. -/
theorem trapLoop_id (h : α) (r : Nat) (i : Int) (s : α) :
    trapLoop (fun x : α => x) 0 h r i s
      = s + h * ((r : α) * (i : α) + (r : α) * ((r : α) - 1) / 2) := by
  induction r generalizing i s with
  | zero => simp [trapLoop]
  | succ r ih =>
    rw [trapLoop, ih]
    push_cast
    ring

/-! ## The recorded Newton loop -/

/-- One pass through the body of the recorded Newton loop. -/
theorem newtonTrace_succ (c1 c2 tol : α) (k : Nat) (v : α) :
    newtonTrace c1 c2 tol (k + 1) v =
      if |df_drone v c1 c2| < 1e-10 then ([v], NewtonExit.stationary)
      else if v - f_drone v c1 c2 / df_drone v c1 c2 ≤ 0 then ([v], NewtonExit.nonPhysical)
      else if |v - f_drone v c1 c2 / df_drone v c1 c2 - v| < tol then
        ([v, v - f_drone v c1 c2 / df_drone v c1 c2], NewtonExit.converged)
      else
        (v :: (newtonTrace c1 c2 tol k (v - f_drone v c1 c2 / df_drone v c1 c2)).1,
          (newtonTrace c1 c2 tol k (v - f_drone v c1 c2 / df_drone v c1 c2)).2) := rfl

/-- The recorded loop returns what `newtonLoop` returns: the last recorded value, and
`converged` exactly when the exit is the step test. -/
theorem newtonTrace_refines (c1 c2 tol : α) (n : Nat) :
    ∀ v : α, (newtonTrace c1 c2 tol n v).1.getLast? = some (newtonLoop c1 c2 tol n v).1 ∧
      ((newtonLoop c1 c2 tol n v).2 = true ↔
        (newtonTrace c1 c2 tol n v).2 = NewtonExit.converged) := by
  induction n with
  | zero => intro v; simp [newtonTrace, newtonLoop]
  | succ n ih =>
    intro v
    rw [newtonTrace_succ, newtonLoop_succ]
    by_cases hd : |df_drone v c1 c2| < 1e-10
    · simp only [if_pos hd]
      simp
    · by_cases hn : v - f_drone v c1 c2 / df_drone v c1 c2 ≤ 0
      · simp only [if_neg hd, if_pos hn]
        simp
      · by_cases ht : |v - f_drone v c1 c2 / df_drone v c1 c2 - v| < tol
        · simp only [if_neg hd, if_neg hn, if_pos ht]
          simp
        · have h := ih (v - f_drone v c1 c2 / df_drone v c1 c2)
          simp only [if_neg hd, if_neg hn, if_neg ht]
          refine ⟨?_, h.2⟩
          cases hl : (newtonTrace c1 c2 tol n (v - f_drone v c1 c2 / df_drone v c1 c2)).1 with
          | nil =>
            have h1 := h.1
            rw [hl] at h1
            simp at h1
          | cons x l =>
            rw [List.getLast?_cons_cons, ← hl]
            exact h.1

/-! ## C1: trapezoid of the identity -/

/-- C1: for every integer `n >= 1`, `trapezoidal_solver` applied to the identity over `[0, 10]`
with `n` subintervals returns exactly `50`. -/
theorem trapezoidal_identity_exact (n : Int) (hn : 1 ≤ n) :
    trapezoidal_solver (fun x : α => x) 0 10 n = 50 := by
  obtain ⟨m, rfl⟩ : ∃ m : Nat, n = (m : Int) + 1 := ⟨(n - 1).toNat, by omega⟩
  have hm : ((m : α) + 1) ≠ 0 := by positivity
  simp only [trapezoidal_solver, add_sub_cancel_right, Int.toNat_ofNat, trapLoop_id]
  push_cast
  field_simp
  ring

/-- Witness for C1: four subintervals, over the rationals. -/
theorem trapezoidal_identity_exact_witness :
    (1 : Int) ≤ 4 ∧ trapezoidal_solver (fun x : ℚ => x) 0 10 4 = 50 :=
  ⟨by decide, trapezoidal_identity_exact 4 (by decide)⟩

/-! ## C3: the difference quotient on a cubic -/

/-- C3: `high_accuracy_diff` applied to `v^3` at `x = 2`, `h = 0.01` returns `12`, and for every
`x` and every `h ≠ 0` it returns exactly `3 * x^2`. -/
theorem high_accuracy_diff_cubic :
    high_accuracy_diff (fun v : α => v ^ 3) 2 0.01 = 12 ∧
    ∀ x h : α, h ≠ 0 → high_accuracy_diff (fun v : α => v ^ 3) x h = 3 * x ^ 2 := by
  have key : ∀ x h : α, h ≠ 0 → high_accuracy_diff (fun v : α => v ^ 3) x h = 3 * x ^ 2 := by
    intro x h hh
    simp only [high_accuracy_diff]
    field_simp
    ring
  refine ⟨?_, key⟩
  rw [key 2 0.01 (by norm_num)]
  norm_num

/-- Witness for C3: `x = 5`, `h = 1/2`, over the rationals. -/
theorem high_accuracy_diff_cubic_witness :
    (1 / 2 : ℚ) ≠ 0 ∧ high_accuracy_diff (fun v : ℚ => v ^ 3) 5 (1 / 2) = 3 * 5 ^ 2 :=
  ⟨by norm_num, high_accuracy_diff_cubic.2 5 (1 / 2) (by norm_num)⟩

/-! ## C5, C6: no iterations, and the choice of `v_opt` -/

/-- C5: with `max_iter <= 0` the solver sets `converged = false` and returns `v0` unchanged,
for every `c1`, `c2`, `v0` and `tolerance`. -/
theorem newton_no_iterations (c1 c2 v0 tolerance : α) (max_iter : Int) (h : max_iter ≤ 0) :
    newton_raphson_solver c1 c2 v0 tolerance max_iter = (v0, false) := by
  simp [newton_raphson_solver, Int.toNat_eq_zero.2 h, newtonLoop]

/-- Witness for C5: `max_iter = 0`. -/
theorem newton_no_iterations_witness :
    (0 : Int) ≤ 0 ∧ newton_raphson_solver (1 : ℚ) 1 1 0.0001 0 = (1, false) :=
  ⟨le_refl 0, newton_no_iterations 1 1 1 0.0001 0 (le_refl 0)⟩

/-- C8: for `c1, c2 > 0` with `(c2/c1)^(1/4) > 1e-9`, the analytic fallback is a root of
`f_drone` and the only root among `v > 1e-9`. -/
theorem analytic_fallback_unique_root (c1 c2 : ℝ) (h1 : 0 < c1) (h2 : 0 < c2)
    (hv : 1e-9 < (c2 / c1) ^ ((1 : ℝ) / 4)) :
    f_drone ((c2 / c1) ^ ((1 : ℝ) / 4)) c1 c2 = 0 ∧
    ∀ v : ℝ, 1e-9 < v → f_drone v c1 c2 = 0 → v = (c2 / c1) ^ ((1 : ℝ) / 4) := by
  have hc := coeff_eq_of_root c1 c2 h1 h2
  set r := (c2 / c1) ^ ((1 : ℝ) / 4) with hr
  constructor
  · rw [hc]; exact f_drone_root r c1 hv
  · intro v hv1 hv0
    have e := f_drone_zero_imp v c1 c2 hv1 hv0
    rw [hc] at e
    have e4 : v ^ 4 = r ^ 4 := mul_left_cancel₀ (ne_of_gt h1) e
    exact (pow_left_inj₀ (le_of_lt (pos_of_gt_eps v hv1)) (le_of_lt (pos_of_gt_eps r hv))
      (by norm_num)).1 e4

/-- Witness for C8: `c1 = c2 = 1`. -/
theorem analytic_fallback_unique_root_witness :
    (0 : ℝ) < 1 ∧ (0 : ℝ) < 1 ∧ (1e-9 : ℝ) < ((1 : ℝ) / 1) ^ ((1 : ℝ) / 4) ∧
    (f_drone (((1 : ℝ) / 1) ^ ((1 : ℝ) / 4)) 1 1 = 0 ∧
      ∀ v : ℝ, 1e-9 < v → f_drone v 1 1 = 0 → v = ((1 : ℝ) / 1) ^ ((1 : ℝ) / 4)) :=
  ⟨one_pos, one_pos, by norm_num,
    analytic_fallback_unique_root 1 1 one_pos one_pos (by norm_num)⟩

/-! ## C9: a start at the root -/

/-- C9, as amended: the input `c1 = 1`, `c2 = 1`, `v0 = 1`, `tolerance = 0.0001`,
`max_iter = 100` gives `converged = true` with value `1`; and whenever `v0 > 1e-9` is a root as
the solver sees it, `f_drone(v0, c1, c2) = 0`, the derivative there passes the guard,
`|df_drone(v0, c1, c2)| >= 1e-10`, `tolerance > 0` and `max_iter >= 1`, the solver returns `v0`
with `converged = true` in its first iteration. -/
theorem newton_start_at_root :
    newton_raphson_solver (1 : α) 1 1 0.0001 100 = (1, true) ∧
    ∀ (c1 c2 v0 tol : α) (max_iter : Int), 1e-9 < v0 → f_drone v0 c1 c2 = 0 →
      1e-10 ≤ |df_drone v0 c1 c2| → 0 < tol → 1 ≤ max_iter →
      newton_raphson_solver c1 c2 v0 tol max_iter = (v0, true) ∧
      newtonTrace c1 c2 tol max_iter.toNat v0 = ([v0, v0], NewtonExit.converged) := by
  have key : ∀ (c1 c2 v0 tol : α) (max_iter : Int), 1e-9 < v0 → f_drone v0 c1 c2 = 0 →
      1e-10 ≤ |df_drone v0 c1 c2| → 0 < tol → 1 ≤ max_iter →
      newton_raphson_solver c1 c2 v0 tol max_iter = (v0, true) ∧
      newtonTrace c1 c2 tol max_iter.toNat v0 = ([v0, v0], NewtonExit.converged) := by
    intro c1 c2 v0 tol max_iter hv hf hd ht hm
    obtain ⟨k, hk⟩ : ∃ k : Nat, max_iter.toNat = k + 1 := ⟨max_iter.toNat - 1, by omega⟩
    have hv0 : ¬ (v0 ≤ 0) := not_le.2 (pos_of_gt_eps v0 hv)
    have hstep : v0 - f_drone v0 c1 c2 / df_drone v0 c1 c2 = v0 := by
      rw [hf, zero_div, sub_zero]
    have habs : |v0 - v0| < tol := by rw [sub_self, abs_zero]; exact ht
    rw [newton_raphson_solver, hk, newtonLoop_succ, newtonTrace_succ, hstep,
      if_neg (not_lt.2 hd), if_neg hv0, if_pos habs, if_neg (not_lt.2 hd), if_neg hv0,
      if_pos habs]
    exact ⟨rfl, rfl⟩
  refine ⟨?_, key⟩
  have hg : (1e-9 : α) < 1 := by norm_num
  have hf : f_drone (1 : α) 1 1 = 0 := by
    rw [f_drone_of_gt _ _ _ hg]; norm_num
  have hd : (1e-10 : α) ≤ |df_drone (1 : α) 1 1| := by
    rw [df_drone_of_gt _ _ _ hg, abs_of_pos (by norm_num)]; norm_num
  exact (key 1 1 1 0.0001 100 hg hf hd (by norm_num) (by norm_num)).1

/-- Witness for C9 as amended: `c1 = 2`, `v0 = 3`, `c2 = 2 * 3^4 = 162`, over the rationals. -/
theorem newton_start_at_root_witness :
    (1e-9 : ℚ) < 3 ∧ f_drone (3 : ℚ) 2 162 = 0 ∧ (1e-10 : ℚ) ≤ |df_drone (3 : ℚ) 2 162| ∧
    (0 : ℚ) < 1 / 100 ∧ (1 : Int) ≤ 5 ∧
    (newton_raphson_solver (2 : ℚ) 162 3 (1 / 100) 5 = (3, true) ∧
      newtonTrace (2 : ℚ) 162 (1 / 100) (5 : Int).toNat 3 = ([3, 3], NewtonExit.converged)) := by
  have hg : (1e-9 : ℚ) < 3 := by norm_num
  have hf : f_drone (3 : ℚ) 2 162 = 0 := by
    rw [f_drone_of_gt _ _ _ hg]; norm_num
  have hd : (1e-10 : ℚ) ≤ |df_drone (3 : ℚ) 2 162| := by
    rw [df_drone_of_gt _ _ _ hg, abs_of_pos (by norm_num)]; norm_num
  exact ⟨hg, hf, hd, by norm_num, by decide,
    newton_start_at_root.2 2 162 3 (1 / 100) 5 hg hf hd (by norm_num) (by decide)⟩

/-- Counterexample to C9 as stated: `c1 = c2 = 1e-12`, `v0 = 1` meets every hypothesis of the
claim, yet the derivative `8e-12` is below the `1e-10` guard and the solver returns with
`converged = false`. -/
theorem newton_start_at_root_tiny_c1 :
    (0 : ℝ) < 1e-12 ∧ (1e-9 : ℝ) < 1 ∧ (1e-12 : ℝ) = 1e-12 * 1 ^ 4 ∧ (0 : ℝ) < 0.0001 ∧
    (1 : Int) ≤ 100 ∧
    newton_raphson_solver (1e-12 : ℝ) 1e-12 1 0.0001 100 = (1, false) := by
  refine ⟨by norm_num, by norm_num, by norm_num, by norm_num, by decide, ?_⟩
  have h100 : (100 : Int).toNat = 99 + 1 := by decide
  rw [newton_raphson_solver, h100]
  have hv : (1e-9 : ℝ) < 1 := by norm_num
  have hd : df_drone (1 : ℝ) 1e-12 1e-12 = 8e-12 := by
    rw [df_drone_of_gt _ _ _ hv]; norm_num
  have habs : |(8e-12 : ℝ)| < 1e-10 := by
    rw [abs_of_pos (by norm_num)]; norm_num
  rw [newtonLoop_succ, hd, if_pos habs]

/-! ## C4: what `converged = true` guarantees -/

theorem f_drone_sentinel (v c1 c2 : α) (hv : v ≤ 1e-9) : f_drone v c1 c2 = 1e12 := by
  simp [f_drone, hv]

theorem df_drone_sentinel (v c1 c2 : α) (hv : v ≤ 1e-9) : df_drone v c1 c2 = 1e12 := by
  simp [df_drone, hv]

/-- An iterate at or below the guard makes the next step non-positive. -/
theorem newton_step_sentinel (v c1 c2 : α) (hv : v ≤ 1e-9) :
    v - f_drone v c1 c2 / df_drone v c1 c2 ≤ 0 := by
  rw [f_drone_sentinel _ _ _ hv, df_drone_sentinel _ _ _ hv]
  have h : (1e12 : α) / 1e12 = 1 := by norm_num
  have h9 : (1e-9 : α) ≤ 1 := by norm_num
  rw [h]
  linarith

/-- Above the guard, with `c2 = c1 * r^4`, the Newton step has a closed form. -/
theorem newton_step_closed (u c1 r : α) (hc : 0 < c1) (hr : 0 < r) (hu : 1e-9 < u) :
    u - f_drone u c1 (c1 * r ^ 4) / df_drone u c1 (c1 * r ^ 4)
      = 4 * r ^ 4 * u / (u ^ 4 + 3 * r ^ 4) := by
  have hu0 : 0 < u := pos_of_gt_eps u hu
  have hD : 0 < u ^ 4 + 3 * r ^ 4 := by positivity
  have hE : 0 < 2 * c1 * (u * u * u * u) + 6 * (c1 * r ^ 4) := by positivity
  rw [f_drone_of_gt _ _ _ hu, df_drone_of_gt _ _ _ hu]
  field_simp
  ring

/-- A run that ends with `converged = true` ends with a Newton step, taken from an iterate
above the guard that satisfies every invariant of the steps, to a positive value less than
`tol` away. -/
theorem newtonLoop_converged (c1 c2 tol : α) (Inv : α → Prop)
    (hstep : ∀ u, Inv u → 1e-9 < u → Inv (u - f_drone u c1 c2 / df_drone u c1 c2))
    (n : Nat) :
    ∀ v0 v : α, Inv v0 → newtonLoop c1 c2 tol n v0 = (v, true) →
      ∃ u, Inv u ∧ 1e-9 < u ∧ v = u - f_drone u c1 c2 / df_drone u c1 c2 ∧ 0 < v ∧
        |v - u| < tol := by
  induction n with
  | zero =>
    intro v0 v _ h
    simp [newtonLoop] at h
  | succ n ih =>
    intro v0 v hinv h
    rw [newtonLoop_succ] at h
    by_cases hd : |df_drone v0 c1 c2| < 1e-10
    · rw [if_pos hd] at h
      simp at h
    · rw [if_neg hd] at h
      by_cases hn : v0 - f_drone v0 c1 c2 / df_drone v0 c1 c2 ≤ 0
      · rw [if_pos hn] at h
        simp at h
      · rw [if_neg hn] at h
        have hv0 : 1e-9 < v0 := by
          by_contra hle
          exact hn (newton_step_sentinel v0 c1 c2 (not_lt.1 hle))
        by_cases ht : |v0 - f_drone v0 c1 c2 / df_drone v0 c1 c2 - v0| < tol
        · rw [if_pos ht] at h
          have hv : v = v0 - f_drone v0 c1 c2 / df_drone v0 c1 c2 := by
            have := congrArg Prod.fst h
            exact this.symm
          refine ⟨v0, hinv, hv0, hv, ?_, ?_⟩
          · rw [hv]; exact not_le.1 hn
          · rw [hv]; exact ht
        · rw [if_neg ht] at h
          exact ih _ v (hstep v0 hinv hv0) h

/-- The Newton step never lands above the root. -/
theorem newton_step_le_root (u r : α) (hu : 0 < u) (hr : 0 < r) :
    4 * r ^ 4 * u / (u ^ 4 + 3 * r ^ 4) ≤ r := by
  have hD : 0 < u ^ 4 + 3 * r ^ 4 := by positivity
  rw [div_le_iff₀ hD]
  have e : r * (u ^ 4 + 3 * r ^ 4) - 4 * r ^ 4 * u
      = r * ((u - r) ^ 2 * (u ^ 2 + 2 * u * r + 3 * r ^ 2)) := by ring
  have : 0 ≤ r * ((u - r) ^ 2 * (u ^ 2 + 2 * u * r + 3 * r ^ 2)) := by positivity
  linarith

/-- At or below the root, the Newton step does not move down. -/
theorem newton_step_ge_self (u r : α) (hu : 0 < u) (hr : 0 < r) (hur : u ≤ r) :
    u ≤ 4 * r ^ 4 * u / (u ^ 4 + 3 * r ^ 4) := by
  have hD : 0 < u ^ 4 + 3 * r ^ 4 := by positivity
  rw [le_div_iff₀ hD]
  have h4 : u ^ 4 ≤ r ^ 4 := pow_le_pow_left₀ (le_of_lt hu) hur 4
  have : u * (u ^ 4 + 3 * r ^ 4) ≤ u * (r ^ 4 + 3 * r ^ 4) :=
    mul_le_mul_of_nonneg_left (by linarith) (le_of_lt hu)
  calc u * (u ^ 4 + 3 * r ^ 4) ≤ u * (r ^ 4 + 3 * r ^ 4) := this
    _ = 4 * r ^ 4 * u := by ring

/-- Below nine tenths of the root, from an iterate of at least `4 * tol` and with
`tol <= r / 50`, the Newton step is at least `tol` long. -/
theorem newton_step_long (u r tol : α) (hr : 0 < r) (hu : 0 < u) (h4 : 4 * tol ≤ u)
    (h9 : u ≤ 9 / 10 * r) (ht : tol ≤ r / 50) :
    tol ≤ 4 * r ^ 4 * u / (u ^ 4 + 3 * r ^ 4) - u := by
  have hD : 0 < u ^ 4 + 3 * r ^ 4 := by positivity
  have e : 4 * r ^ 4 * u / (u ^ 4 + 3 * r ^ 4) - u
      = u * (r ^ 4 - u ^ 4) / (u ^ 4 + 3 * r ^ 4) := by
    field_simp
    ring
  rw [e, le_div_iff₀ hD]
  rcases le_total u (r / 2) with h2 | h2
  · have h16 : u ^ 4 ≤ (r / 2) ^ 4 := pow_le_pow_left₀ (le_of_lt hu) h2 4
    have h5 : 5 * u ^ 4 ≤ r ^ 4 := by
      have hr4 : 0 < r ^ 4 := by positivity
      have : (r / 2) ^ 4 = r ^ 4 / 16 := by ring
      rw [this] at h16
      linarith
    have h6 : tol * (u ^ 4 + 3 * r ^ 4) ≤ u / 4 * (u ^ 4 + 3 * r ^ 4) :=
      mul_le_mul_of_nonneg_right (by linarith) (le_of_lt hD)
    have h7 : u / 4 * (u ^ 4 + 3 * r ^ 4) ≤ u * (r ^ 4 - u ^ 4) := by
      have : u * (r ^ 4 - u ^ 4) - u / 4 * (u ^ 4 + 3 * r ^ 4) = u / 4 * (r ^ 4 - 5 * u ^ 4) := by
        ring
      have hnn : 0 ≤ u / 4 * (r ^ 4 - 5 * u ^ 4) :=
        mul_nonneg (by positivity) (by linarith)
      linarith
    exact le_trans h6 h7
  · have h6 : tol * (u ^ 4 + 3 * r ^ 4) ≤ r / 50 * (u ^ 4 + 3 * r ^ 4) :=
      mul_le_mul_of_nonneg_right ht (le_of_lt hD)
    have hq : 0 ≤ 50 * u ^ 3 + 71 * u ^ 2 * r + 769 / 10 * u * r ^ 2 + 7571 / 100 * r ^ 3 := by
      positivity
    have hp : 0 ≤ (u - r / 2) * (9 / 10 * r - u)
        * (50 * u ^ 3 + 71 * u ^ 2 * r + 769 / 10 * u * r ^ 2 + 7571 / 100 * r ^ 3) :=
      mul_nonneg (mul_nonneg (by linarith) (by linarith)) hq
    have hl : 0 ≤ (310695 / 10000 * r - 21389 / 1000 * u) * r ^ 4 :=
      mul_nonneg (by linarith) (by positivity)
    have key : 50 * (u * (r ^ 4 - u ^ 4)) - r * (u ^ 4 + 3 * r ^ 4)
        = (u - r / 2) * (9 / 10 * r - u)
            * (50 * u ^ 3 + 71 * u ^ 2 * r + 769 / 10 * u * r ^ 2 + 7571 / 100 * r ^ 3)
          + (310695 / 10000 * r - 21389 / 1000 * u) * r ^ 4 := by ring
    have h7 : r / 50 * (u ^ 4 + 3 * r ^ 4) ≤ u * (r ^ 4 - u ^ 4) := by linarith
    exact le_trans h6 h7

/-- A step shorter than `r/50`, taken from an iterate of at least nine tenths of the root,
starts within `r/42` of the root. -/
theorem last_iterate_close (u r tol : α) (hr : 0 < r) (h1 : 9 / 10 * r ≤ u)
    (ht : tol ≤ r / 50)
    (hs : |4 * r ^ 4 * u / (u ^ 4 + 3 * r ^ 4) - u| < tol) :
    |u - r| < r / 42 := by
  have hu : 0 < u := lt_of_lt_of_le (by positivity) h1
  have hD : 0 < u ^ 4 + 3 * r ^ 4 := by positivity
  have e : 4 * r ^ 4 * u / (u ^ 4 + 3 * r ^ 4) - u
      = (r - u) * (u * (u + r) * (u ^ 2 + r ^ 2)) / (u ^ 4 + 3 * r ^ 4) := by
    field_simp
    ring
  have hK : 21 * (u ^ 4 + 3 * r ^ 4) ≤ 25 * (u * (u + r) * (u ^ 2 + r ^ 2)) := by
    have a1 : 0 ≤ (u - 9 / 10 * r) * u ^ 3 := mul_nonneg (by linarith) (by positivity)
    have a2 : 0 ≤ (u - 9 / 10 * r) * (u ^ 2 * r) := mul_nonneg (by linarith) (by positivity)
    have a3 : 0 ≤ (u - 9 / 10 * r) * (u * r ^ 2) := mul_nonneg (by linarith) (by positivity)
    have a4 : 0 ≤ (u - 9 / 10 * r) * r ^ 3 := mul_nonneg (by linarith) (by positivity)
    have a5 : 0 < r ^ 4 := by positivity
    nlinarith
  have hM : 0 < u * (u + r) * (u ^ 2 + r ^ 2) := by positivity
  rw [e, abs_div, abs_of_pos hD, div_lt_iff₀ hD, abs_mul, abs_of_pos hM] at hs
  by_contra hcon
  have hge : r / 42 ≤ |u - r| := not_lt.1 hcon
  rw [abs_sub_comm] at hge
  have h3 : r / 42 * (u * (u + r) * (u ^ 2 + r ^ 2)) ≤ |r - u| * (u * (u + r) * (u ^ 2 + r ^ 2)) :=
    mul_le_mul_of_nonneg_right hge (le_of_lt hM)
  have h4 : tol * (u ^ 4 + 3 * r ^ 4) ≤ r / 50 * (u ^ 4 + 3 * r ^ 4) :=
    mul_le_mul_of_nonneg_right ht (le_of_lt hD)
  have h5 : r / 50 * (u ^ 4 + 3 * r ^ 4) ≤ r / 42 * (u * (u + r) * (u ^ 2 + r ^ 2)) := by
    have := mul_le_mul_of_nonneg_left hK (le_of_lt (show (0 : α) < r / 1050 by positivity))
    calc r / 50 * (u ^ 4 + 3 * r ^ 4) = r / 1050 * (21 * (u ^ 4 + 3 * r ^ 4)) := by ring
      _ ≤ r / 1050 * (25 * (u * (u + r) * (u ^ 2 + r ^ 2))) := this
      _ = r / 42 * (u * (u + r) * (u ^ 2 + r ^ 2)) := by ring
  linarith

/-- A Newton step from within `r/42` of the root lands within `r/1000` of it. -/
theorem newton_step_error_fine (u r : α) (hu : 0 < u) (hr : 0 < r) (hd : |u - r| < r / 42) :
    r - 4 * r ^ 4 * u / (u ^ 4 + 3 * r ^ 4) ≤ r / 1000 := by
  have hD : 0 < u ^ 4 + 3 * r ^ 4 := by positivity
  have e : r - 4 * r ^ 4 * u / (u ^ 4 + 3 * r ^ 4)
      = r * ((u - r) ^ 2 * (u ^ 2 + 2 * u * r + 3 * r ^ 2)) / (u ^ 4 + 3 * r ^ 4) := by
    field_simp
    ring
  have hsq : (u - r) ^ 2 ≤ (r / 42) ^ 2 := by
    have := abs_lt.1 hd
    nlinarith
  have hB : 5 * (r ^ 2 * (u ^ 2 + 2 * u * r + 3 * r ^ 2)) ≤ 8 * (u ^ 4 + 3 * r ^ 4) := by
    have e2 : 8 * (u ^ 4 + 3 * r ^ 4) - 5 * (r ^ 2 * (u ^ 2 + 2 * u * r + 3 * r ^ 2))
        = 8 * (u ^ 2 - 3 / 4 * r ^ 2) ^ 2 + 7 * (r * (u - 5 / 7 * r)) ^ 2 + 13 / 14 * (r ^ 2) ^ 2 := by
      ring
    have : 0 ≤ 8 * (u ^ 2 - 3 / 4 * r ^ 2) ^ 2 + 7 * (r * (u - 5 / 7 * r)) ^ 2
        + 13 / 14 * (r ^ 2) ^ 2 := by positivity
    linarith
  rw [e, div_le_iff₀ hD]
  have hq : 0 ≤ u ^ 2 + 2 * u * r + 3 * r ^ 2 := by positivity
  have h1 : (u - r) ^ 2 * (u ^ 2 + 2 * u * r + 3 * r ^ 2)
      ≤ (r / 42) ^ 2 * (u ^ 2 + 2 * u * r + 3 * r ^ 2) :=
    mul_le_mul_of_nonneg_right hsq hq
  have h2 : (r / 42) ^ 2 * (u ^ 2 + 2 * u * r + 3 * r ^ 2) ≤ 8 / 8820 * (u ^ 4 + 3 * r ^ 4) := by
    have : (r / 42) ^ 2 * (u ^ 2 + 2 * u * r + 3 * r ^ 2)
        = 1 / 8820 * (5 * (r ^ 2 * (u ^ 2 + 2 * u * r + 3 * r ^ 2))) := by ring
    rw [this]
    linarith
  have h3 : r * ((u - r) ^ 2 * (u ^ 2 + 2 * u * r + 3 * r ^ 2))
      ≤ r * (8 / 8820 * (u ^ 4 + 3 * r ^ 4)) :=
    mul_le_mul_of_nonneg_left (le_trans h1 h2) (le_of_lt hr)
  have h4 : r * (8 / 8820 * (u ^ 4 + 3 * r ^ 4)) ≤ r / 1000 * (u ^ 4 + 3 * r ^ 4) := by
    have : 0 ≤ r * (u ^ 4 + 3 * r ^ 4) := by positivity
    nlinarith
  linarith

/-- Started at or below the guard, the loop never reports convergence. -/
theorem newtonLoop_sentinel (c1 c2 tol : α) (n : Nat) (v : α) (hv : v ≤ 1e-9) :
    newtonLoop c1 c2 tol n v = (v, false) := by
  cases n with
  | zero => rfl
  | succ n =>
    have hd : ¬ |df_drone v c1 c2| < 1e-10 := by
      rw [df_drone_sentinel _ _ _ hv, abs_of_pos (by norm_num)]; norm_num
    rw [newtonLoop_succ, if_neg hd, if_pos (newton_step_sentinel v c1 c2 hv)]

/-- Generic form of the convergence guarantee, for a root `r > 0` with `c2 = c1 * r^4`: when
the start and the first Newton iterate are at least `4 * tol` and `tol <= r / 50`, a run that
ends with `converged = true` ends within `r / 1000` of the root. -/
theorem newton_converged_close (c1 r v0 tol : α) (n : Nat) (v : α) (hc : 0 < c1) (hr : 0 < r)
    (h : newtonLoop c1 (c1 * r ^ 4) tol n v0 = (v, true))
    (ht : tol ≤ r / 50) (h0 : 4 * tol ≤ v0)
    (h1 : 4 * tol ≤ v0 - f_drone v0 c1 (c1 * r ^ 4) / df_drone v0 c1 (c1 * r ^ 4)) :
    |v - r| ≤ 1e-3 * r := by
  have hv0 : 1e-9 < v0 := by
    by_contra hle
    rw [newtonLoop_sentinel c1 (c1 * r ^ 4) tol n v0 (not_lt.1 hle)] at h
    simp at h
  rw [newton_step_closed v0 c1 r hc hr hv0] at h1
  obtain ⟨u, ⟨hu4, hun⟩, hu, hv, hpos, hs⟩ := newtonLoop_converged c1 (c1 * r ^ 4) tol
    (fun u => 4 * tol ≤ u ∧ 4 * tol ≤ 4 * r ^ 4 * u / (u ^ 4 + 3 * r ^ 4))
    (fun u hi hu => by
      have hu0 : 0 < u := pos_of_gt_eps u hu
      have hle := newton_step_le_root u r hu0 hr
      have hpos2 : 0 < 4 * r ^ 4 * u / (u ^ 4 + 3 * r ^ 4) := by positivity
      rw [newton_step_closed u c1 r hc hr hu]
      exact ⟨hi.2, le_trans hi.2 (newton_step_ge_self _ r hpos2 hr hle)⟩)
    n v0 v ⟨h0, h1⟩ h
  have hu0 : 0 < u := pos_of_gt_eps u hu
  rw [hv, newton_step_closed u c1 r hc hr hu] at hs ⊢
  have hle := newton_step_le_root u r hu0 hr
  have h9 : 9 / 10 * r ≤ u := by
    by_contra hlt
    have hlong := newton_step_long u r tol hr hu0 hu4 (le_of_lt (not_le.1 hlt)) ht
    have := (abs_lt.1 hs).2
    linarith
  have hnear := last_iterate_close u r tol hr h9 ht hs
  have herr := newton_step_error_fine u r hu0 hr hnear
  rw [abs_sub_comm, abs_of_nonneg (by linarith)]
  have e3 : (1e-3 : α) * r = r / 1000 := by norm_num; ring
  rw [e3]
  exact herr

/-- C4, as amended, in exact real arithmetic: for `c1, c2 > 0` and root `r = (c2/c1)^(1/4)`, if
`tolerance <= r / 50` and both the start `v0` and the first Newton iterate
`v0 - f_drone(v0)/df_drone(v0)` are at least `4 * tolerance`, then a return with
`converged = true` and value `v` has `|v - r| <= 1e-3 * r`. -/
theorem newton_converged_near_root (c1 c2 v0 tol : ℝ) (max_iter : Int) (v : ℝ)
    (h1 : 0 < c1) (h2 : 0 < c2)
    (hconv : newton_raphson_solver c1 c2 v0 tol max_iter = (v, true))
    (htol : tol ≤ (c2 / c1) ^ ((1 : ℝ) / 4) / 50) (hv0 : 4 * tol ≤ v0)
    (hv1 : 4 * tol ≤ v0 - f_drone v0 c1 c2 / df_drone v0 c1 c2) :
    |v - (c2 / c1) ^ ((1 : ℝ) / 4)| ≤ 1e-3 * (c2 / c1) ^ ((1 : ℝ) / 4) := by
  have hc := coeff_eq_of_root c1 c2 h1 h2
  have hr : 0 < (c2 / c1) ^ ((1 : ℝ) / 4) := Real.rpow_pos_of_pos (div_pos h2 h1) _
  rw [newton_raphson_solver, hc] at hconv
  rw [hc] at hv1
  exact newton_converged_close c1 _ v0 tol _ v h1 hr hconv htol hv0 hv1

/-- Witness for C4 as amended: `c1 = c2 = 1`, `v0 = 9/10`, `tolerance = 1/50`; the run takes
the steps `9/10 -> 12000/12187 -> 28960790771248000/28971072320574961` and stops there. -/
theorem newton_converged_near_root_witness :
    (0 : ℝ) < 1 ∧ (0 : ℝ) < 1 ∧
    newton_raphson_solver (1 : ℝ) 1 (9 / 10) (1 / 50) 100
      = (28960790771248000 / 28971072320574961, true) ∧
    (1 / 50 : ℝ) ≤ ((1 : ℝ) / 1) ^ ((1 : ℝ) / 4) / 50 ∧ 4 * (1 / 50 : ℝ) ≤ 9 / 10 ∧
    4 * (1 / 50 : ℝ) ≤ 9 / 10 - f_drone (9 / 10 : ℝ) 1 1 / df_drone (9 / 10 : ℝ) 1 1 ∧
    |(28960790771248000 / 28971072320574961 : ℝ) - ((1 : ℝ) / 1) ^ ((1 : ℝ) / 4)|
      ≤ 1e-3 * ((1 : ℝ) / 1) ^ ((1 : ℝ) / 4) := by
  have hg0 : (1e-9 : ℝ) < 9 / 10 := by norm_num
  have hg1 : (1e-9 : ℝ) < 12000 / 12187 := by norm_num
  have hs0 : (9 / 10 : ℝ) - f_drone (9 / 10) 1 1 / df_drone (9 / 10) 1 1 = 12000 / 12187 := by
    rw [f_drone_of_gt _ _ _ hg0, df_drone_of_gt _ _ _ hg0]
    norm_num
  have hs1 : (12000 / 12187 : ℝ) - f_drone (12000 / 12187) 1 1 / df_drone (12000 / 12187) 1 1
      = 28960790771248000 / 28971072320574961 := by
    rw [f_drone_of_gt _ _ _ hg1, df_drone_of_gt _ _ _ hg1]
    norm_num
  have hd0 : ¬ |df_drone (9 / 10 : ℝ) 1 1| < 1e-10 := by
    rw [df_drone_of_gt _ _ _ hg0, abs_of_pos (by positivity)]
    norm_num
  have hd1 : ¬ |df_drone (12000 / 12187 : ℝ) 1 1| < 1e-10 := by
    rw [df_drone_of_gt _ _ _ hg1, abs_of_pos (by positivity)]
    norm_num
  have hn0 : ¬ ((12000 / 12187 : ℝ) ≤ 0) := by norm_num
  have hn1 : ¬ ((28960790771248000 / 28971072320574961 : ℝ) ≤ 0) := by norm_num
  have ht0 : ¬ |(12000 / 12187 : ℝ) - 9 / 10| < 1 / 50 := by
    rw [abs_of_pos (by norm_num)]
    norm_num
  have ht1 : |(28960790771248000 / 28971072320574961 : ℝ) - 12000 / 12187| < 1 / 50 := by
    rw [abs_lt]; constructor <;> norm_num
  have hrun : newton_raphson_solver (1 : ℝ) 1 (9 / 10) (1 / 50) 100
      = (28960790771248000 / 28971072320574961, true) := by
    have h100 : (100 : Int).toNat = 98 + 1 + 1 := by decide
    rw [newton_raphson_solver, h100, newtonLoop_succ, if_neg hd0, hs0, if_neg hn0, if_neg ht0,
      newtonLoop_succ, if_neg hd1, hs1, if_neg hn1, if_pos ht1]
  have ha : (1 / 50 : ℝ) ≤ ((1 : ℝ) / 1) ^ ((1 : ℝ) / 4) / 50 := by norm_num
  have hb : 4 * (1 / 50 : ℝ) ≤ 9 / 10 := by norm_num
  have hc : 4 * (1 / 50 : ℝ)
      ≤ 9 / 10 - f_drone (9 / 10 : ℝ) 1 1 / df_drone (9 / 10 : ℝ) 1 1 := by
    rw [hs0]; norm_num
  exact ⟨one_pos, one_pos, hrun, ha, hb, hc,
    newton_converged_near_root 1 1 (9 / 10) (1 / 50) 100 _ one_pos one_pos hrun ha hb hc⟩

/-- Counterexample to C4 as stated: `c1 = c2 = 1`, `v0 = 0.0001`, `tolerance = 0.0001`,
`max_iter = 100` returns `converged = true` after one step of length about `3.3e-5`, with a value
near `1.33e-4`, while `(c2/c1)^(1/4) = 1`. -/
theorem newton_converged_far_from_root :
    (0 : ℝ) < 1 ∧ (0 : ℝ) < 0.0001 ∧
    newton_raphson_solver (1 : ℝ) 1 0.0001 0.0001 100
      = (4000000000000 / 30000000000000001, true) ∧
    ¬ (|(4000000000000 / 30000000000000001 : ℝ) - ((1 : ℝ) / 1) ^ ((1 : ℝ) / 4)|
        ≤ 1e-3 * ((1 : ℝ) / 1) ^ ((1 : ℝ) / 4)) := by
  have hr : ((1 : ℝ) / 1) ^ ((1 : ℝ) / 4) = 1 := by norm_num
  refine ⟨one_pos, by norm_num, ?_, ?_⟩
  · have h100 : (100 : Int).toNat = 99 + 1 := by decide
    have hv : (1e-9 : ℝ) < 0.0001 := by norm_num
    have hstep : (0.0001 : ℝ) - f_drone 0.0001 1 1 / df_drone 0.0001 1 1
        = 4000000000000 / 30000000000000001 := by
      rw [f_drone_of_gt _ _ _ hv, df_drone_of_gt _ _ _ hv]
      norm_num
    have hd : ¬ |df_drone (0.0001 : ℝ) 1 1| < 1e-10 := by
      rw [df_drone_of_gt _ _ _ hv, abs_of_pos (by positivity)]
      norm_num
    have hn : ¬ ((4000000000000 / 30000000000000001 : ℝ) ≤ 0) := by norm_num
    have ht : |(4000000000000 / 30000000000000001 : ℝ) - 0.0001| < 0.0001 := by
      rw [abs_lt]; constructor <;> norm_num
    rw [newton_raphson_solver, h100, newtonLoop_succ, if_neg hd, hstep, if_neg hn, if_pos ht]
  · rw [hr, abs_sub_comm, abs_of_pos (by norm_num)]
    norm_num

/-! ## C7: the root of `f_drone` and the minimum of the power -/

theorem power_consumption_of_gt (v c1 c2 : α) (hv : 1e-9 < v) :
    power_consumption v c1 c2 = c1 * v ^ 3 + c2 / v := by
  simp [power_consumption, not_le.2 hv]

/-- Above the guard, `power_consumption` has derivative `3*c1*v^2 - c2/v^2`. -/
theorem power_consumption_hasDerivAt (c1 c2 v : ℝ) (hv : 1e-9 < v) :
    HasDerivAt (fun u : ℝ => power_consumption u c1 c2) (3 * c1 * v ^ 2 - c2 / v ^ 2) v := by
  have hv0 : v ≠ 0 := ne_of_gt (pos_of_gt_eps v hv)
  have h1 : HasDerivAt (fun u : ℝ => c1 * u ^ 3 + c2 * u⁻¹)
      (c1 * (3 * v ^ 2) + c2 * (-(v ^ 2)⁻¹)) v := by
    have := ((hasDerivAt_pow 3 v).const_mul c1).add ((hasDerivAt_inv hv0).const_mul c2)
    simpa using this
  have h2 : (fun u : ℝ => power_consumption u c1 c2) =ᶠ[nhds v]
      (fun u : ℝ => c1 * u ^ 3 + c2 * u⁻¹) := by
    filter_upwards [Ioi_mem_nhds hv] with u hu
    rw [power_consumption_of_gt u c1 c2 hu, div_eq_mul_inv]
  have h3 := h1.congr_of_eventuallyEq h2
  convert h3 using 1
  field_simp
  ring

/-- Above the guard, `f_drone` is the derivative of `c1*v^2 + c2/v^2`. -/
theorem related_quantity_hasDerivAt (c1 c2 v : ℝ) (hv : 1e-9 < v) :
    HasDerivAt (fun u : ℝ => c1 * u ^ 2 + c2 / u ^ 2) (f_drone v c1 c2) v := by
  have hv0 : v ≠ 0 := ne_of_gt (pos_of_gt_eps v hv)
  have hp : v ^ 2 ≠ 0 := pow_ne_zero 2 hv0
  have h1 := ((hasDerivAt_pow 2 v).const_mul c1).add
    (((hasDerivAt_pow 2 v).inv hp).const_mul c2)
  rw [f_drone_of_gt _ _ _ hv]
  convert h1 using 1
  simp only [Nat.cast_ofNat, Nat.add_one_sub_one, pow_one]
  field_simp
  ring

/-- Counterexample to C7 as stated: for `c1 = c2 = 1` the root of `f_drone` is `1`, where
`power_consumption` is larger than at `v = 4/5` and its derivative is `2`, not `0`. -/
theorem root_is_not_power_minimum :
    (0 : ℝ) < 1 ∧ (1e-9 : ℝ) < 4 / 5 ∧
    power_consumption (4 / 5 : ℝ) 1 1 < power_consumption (((1 : ℝ) / 1) ^ ((1 : ℝ) / 4)) 1 1 ∧
    ¬ HasDerivAt (fun v : ℝ => power_consumption v 1 1) 0 (((1 : ℝ) / 1) ^ ((1 : ℝ) / 4)) := by
  have hr : ((1 : ℝ) / 1) ^ ((1 : ℝ) / 4) = 1 := by norm_num
  have h1 : (1e-9 : ℝ) < 1 := by norm_num
  have h45 : (1e-9 : ℝ) < 4 / 5 := by norm_num
  refine ⟨one_pos, h45, ?_, ?_⟩
  · rw [hr, power_consumption_of_gt _ _ _ h1, power_consumption_of_gt _ _ _ h45]
    norm_num
  · rw [hr]
    intro h0
    have h2 := power_consumption_hasDerivAt 1 1 1 h1
    have := h0.unique h2
    norm_num at this

/-- A fourth root above the guard: `x > 1e-36` gives `x^(1/4) > 1e-9`. -/
theorem guard_lt_rpow_quarter (x : ℝ) (hx : 1e-36 < x) : 1e-9 < x ^ ((1 : ℝ) / 4) := by
  have hx0 : 0 ≤ x := le_of_lt (lt_trans (by norm_num) hx)
  by_contra hle
  have h4 : (x ^ ((1 : ℝ) / 4)) ^ 4 ≤ (1e-9 : ℝ) ^ 4 :=
    pow_le_pow_left₀ (Real.rpow_nonneg hx0 _) (not_lt.1 hle) 4
  rw [rpow_quarter_pow_four x hx0] at h4
  have : (1e-9 : ℝ) ^ 4 = 1e-36 := by norm_num
  rw [this] at h4
  exact absurd hx (not_lt.2 h4)

/-- C7, as amended: for `c1, c2 > 0` with `v* = (c2/c1)^(1/4) > 1e-9`, the velocity `v*` that
the root finder targets is the root of `f_drone`; `f_drone` is the derivative of the related
quantity `c1*v^2 + c2/v^2`, which `v*` minimises over `v > 1e-9`; the derivative of
`power_consumption` at `v*` is `2*c1*v*^2 > 0`; and when `w = (c2/(3*c1))^(1/4) > 1e-9`, it is
at `w` that the derivative of `power_consumption` vanishes and that `power_consumption` is
least over `v > 1e-9`. -/
theorem root_minimises_related_quantity (c1 c2 : ℝ) (h1 : 0 < c1) (h2 : 0 < c2)
    (hv : 1e-9 < (c2 / c1) ^ ((1 : ℝ) / 4)) :
    f_drone ((c2 / c1) ^ ((1 : ℝ) / 4)) c1 c2 = 0 ∧
    (∀ v : ℝ, 1e-9 < v →
      HasDerivAt (fun u : ℝ => c1 * u ^ 2 + c2 / u ^ 2) (f_drone v c1 c2) v) ∧
    (∀ v : ℝ, 1e-9 < v →
      c1 * ((c2 / c1) ^ ((1 : ℝ) / 4)) ^ 2 + c2 / ((c2 / c1) ^ ((1 : ℝ) / 4)) ^ 2
        ≤ c1 * v ^ 2 + c2 / v ^ 2) ∧
    HasDerivAt (fun v : ℝ => power_consumption v c1 c2)
      (2 * c1 * ((c2 / c1) ^ ((1 : ℝ) / 4)) ^ 2) ((c2 / c1) ^ ((1 : ℝ) / 4)) ∧
    0 < 2 * c1 * ((c2 / c1) ^ ((1 : ℝ) / 4)) ^ 2 ∧
    (1e-9 < (c2 / (3 * c1)) ^ ((1 : ℝ) / 4) →
      HasDerivAt (fun v : ℝ => power_consumption v c1 c2) 0 ((c2 / (3 * c1)) ^ ((1 : ℝ) / 4)) ∧
      ∀ v : ℝ, 1e-9 < v →
        power_consumption ((c2 / (3 * c1)) ^ ((1 : ℝ) / 4)) c1 c2
          ≤ power_consumption v c1 c2) := by
  have hc := coeff_eq_of_root c1 c2 h1 h2
  set r := (c2 / c1) ^ ((1 : ℝ) / 4) with hr
  have hr0 : 0 < r := pos_of_gt_eps r hv
  refine ⟨?_, fun v hv1 => related_quantity_hasDerivAt c1 c2 v hv1, ?_, ?_, by positivity, ?_⟩
  · rw [hc]; exact f_drone_root r c1 hv
  · intro v hv1
    have hv0 : 0 < v := pos_of_gt_eps v hv1
    have e : c1 * v ^ 2 + c2 / v ^ 2 - (c1 * r ^ 2 + c2 / r ^ 2)
        = c1 * (v ^ 2 - r ^ 2) ^ 2 / v ^ 2 := by
      rw [hc]
      field_simp
      ring
    have : 0 ≤ c1 * (v ^ 2 - r ^ 2) ^ 2 / v ^ 2 := by positivity
    linarith
  · have h := power_consumption_hasDerivAt c1 c2 r hv
    convert h using 1
    rw [hc]
    field_simp
    ring
  · intro hw2
    have h3 : c2 = 3 * c1 * ((c2 / (3 * c1)) ^ ((1 : ℝ) / 4)) ^ 4 := by
      rw [rpow_quarter_pow_four _ (le_of_lt (div_pos h2 (by positivity)))]
      field_simp
    set w := (c2 / (3 * c1)) ^ ((1 : ℝ) / 4) with hw
    have hw0 : 0 < w := pos_of_gt_eps w hw2
    constructor
    · have h := power_consumption_hasDerivAt c1 c2 w hw2
      convert h using 1
      rw [h3]
      field_simp
      ring
    · intro v hv1
      have hv0 : 0 < v := pos_of_gt_eps v hv1
      rw [power_consumption_of_gt _ _ _ hw2, power_consumption_of_gt _ _ _ hv1]
      have e : c1 * v ^ 3 + c2 / v - (c1 * w ^ 3 + c2 / w)
          = c1 * ((v - w) ^ 2 * (v ^ 2 + 2 * v * w + 3 * w ^ 2)) / v := by
        rw [h3]
        field_simp
        ring
      have : 0 ≤ c1 * ((v - w) ^ 2 * (v ^ 2 + 2 * v * w + 3 * w ^ 2)) / v := by positivity
      linarith

/-- Witness for C7 as amended: `c1 = c2 = 1`, where `(1/3)^(1/4) > 1e-9`. -/
theorem root_minimises_related_quantity_witness :
    (0 : ℝ) < 1 ∧ (0 : ℝ) < 1 ∧ (1e-9 : ℝ) < ((1 : ℝ) / 1) ^ ((1 : ℝ) / 4) ∧
    (1e-9 : ℝ) < ((1 : ℝ) / (3 * 1)) ^ ((1 : ℝ) / 4) ∧
    f_drone (((1 : ℝ) / 1) ^ ((1 : ℝ) / 4)) 1 1 = 0 ∧
    HasDerivAt (fun v : ℝ => power_consumption v 1 1)
      (2 * 1 * (((1 : ℝ) / 1) ^ ((1 : ℝ) / 4)) ^ 2) (((1 : ℝ) / 1) ^ ((1 : ℝ) / 4)) ∧
    HasDerivAt (fun v : ℝ => power_consumption v 1 1) 0
      (((1 : ℝ) / (3 * 1)) ^ ((1 : ℝ) / 4)) ∧
    (∀ v : ℝ, 1e-9 < v →
      power_consumption (((1 : ℝ) / (3 * 1)) ^ ((1 : ℝ) / 4)) 1 1 ≤ power_consumption v 1 1) := by
  have hv : (1e-9 : ℝ) < ((1 : ℝ) / 1) ^ ((1 : ℝ) / 4) := by norm_num
  have hw : (1e-9 : ℝ) < ((1 : ℝ) / (3 * 1)) ^ ((1 : ℝ) / 4) :=
    guard_lt_rpow_quarter _ (by norm_num)
  have h := root_minimises_related_quantity 1 1 one_pos one_pos hv
  exact ⟨one_pos, one_pos, hv, hw, h.1, h.2.2.2.1, (h.2.2.2.2.2 hw).1, (h.2.2.2.2.2 hw).2⟩

/-! ## The Romberg table and the Richardson recursion -/

theorem shl1_of_lt (i : Nat) (h : i < 32) : shl1 i = some (shlVal i) := by
  simp [shl1, shlVal, h]

theorem Table.get_natCast {β : Type} (I : Table β) (j k : Nat) (hj : j < I.dim) (hk : k < I.dim) :
    I.get (j : Int) (k : Int) = some (I.cell j k) := by
  simp [Table.get, hj, hk]

theorem Table.set_natCast {β : Type} (I : Table β) (j k : Nat) (x : β) (hj : j < I.dim) (hk : k < I.dim) :
    I.set (j : Int) (k : Int) x
      = some ⟨I.dim, fun r c => if r = j ∧ c = k then x else I.cell r c⟩ := by
  simp [Table.set, hj, hk]

/-- The first loop fills column `0`, rows `i .. i + r - 1`, with the trapezoid values and
leaves every other cell alone. -/
theorem rombergInit_spec (f : α → α) (a b : α) (r : Nat) :
    ∀ (i : Nat) (I : Table α), i + r ≤ I.dim → i + r ≤ 32 →
      ∃ I1, rombergInit f a b r i I = some I1 ∧ I1.dim = I.dim ∧
        ∀ x y, I1.cell x y =
          if y = 0 ∧ i ≤ x ∧ x < i + r then trapezoidal_solver f a b (shlVal x)
          else I.cell x y := by
  induction r with
  | zero =>
    intro i I _ _
    refine ⟨I, rfl, rfl, fun x y => ?_⟩
    rw [if_neg (by omega)]
  | succ r ih =>
    intro i I h1 h2
    have hset := Table.set_natCast I i 0 (trapezoidal_solver f a b (shlVal i))
      (by omega) (by omega)
    obtain ⟨I2, e2, d2, c2⟩ := ih (i + 1)
      ⟨I.dim, fun r c => if r = i ∧ c = 0 then trapezoidal_solver f a b (shlVal i)
        else I.cell r c⟩ (by simp only []; omega) (by omega)
    refine ⟨I2, ?_, d2, ?_⟩
    · rw [rombergInit, shl1_of_lt i (by omega)]
      simp only []
      rw [show ((0 : Int)) = ((0 : Nat) : Int) from rfl, hset]
      exact e2
    · intro x y
      rw [c2 x y]
      by_cases hy : y = 0
      · by_cases hx : x = i
        · subst hx; simp [hy]
        · have h3 : (i + 1 ≤ x ∧ x < i + 1 + r) ↔ (i ≤ x ∧ x < i + (r + 1)) := by omega
          simp only [hy, true_and, hx, false_and, if_false, h3]
      · simp [hy]

/-- The inner loop fills column `k`, rows `j .. j + r - 1`, from column `k - 1`. -/
theorem rombergRow_spec (k : Nat) (r : Nat) :
    ∀ (j : Nat) (I : Table α), j + r + (k + 1) ≤ I.dim →
      ∃ I1, rombergRow (k + 1) r j I = some I1 ∧ I1.dim = I.dim ∧
        ∀ x y, I1.cell x y =
          if y = k + 1 ∧ j ≤ x ∧ x < j + r then
            ((4 : α) ^ (k + 1) * I.cell (x + 1) k - I.cell x k) / ((4 : α) ^ (k + 1) - 1.0)
          else I.cell x y := by
  induction r with
  | zero =>
    intro j I _
    refine ⟨I, rfl, rfl, fun x y => ?_⟩
    rw [if_neg (by omega)]
  | succ r ih =>
    intro j I h1
    have hk : (((k + 1 : Nat) : Int) - 1) = ((k : Nat) : Int) := by push_cast; ring
    have hj : ((j : Nat) : Int) + 1 = ((j + 1 : Nat) : Int) := by push_cast; ring
    have g1 := Table.get_natCast I (j + 1) k (by omega) (by omega)
    have g2 := Table.get_natCast I j k (by omega) (by omega)
    have hset := Table.set_natCast I j (k + 1)
      (((4 : α) ^ (k + 1) * I.cell (j + 1) k - I.cell j k) / ((4 : α) ^ (k + 1) - 1.0))
      (by omega) (by omega)
    obtain ⟨I2, e2, d2, c2⟩ := ih (j + 1)
      ⟨I.dim, fun r c => if r = j ∧ c = k + 1 then
        ((4 : α) ^ (k + 1) * I.cell (j + 1) k - I.cell j k) / ((4 : α) ^ (k + 1) - 1.0)
        else I.cell r c⟩ (by simp only []; omega)
    refine ⟨I2, ?_, d2, ?_⟩
    · rw [rombergRow, hk, hj, g1, g2]
      simp only []
      rw [hset]
      exact e2
    · intro x y
      rw [c2 x y]
      have hk0 : ¬ (k = k + 1) := by omega
      by_cases hy : y = k + 1
      · by_cases hx : x = j
        · subst hx; simp [hy]
        · have h3 : (j + 1 ≤ x ∧ x < j + 1 + r) ↔ (j ≤ x ∧ x < j + (r + 1)) := by omega
          simp only [hy, true_and, hx, false_and, if_false, h3, hk0, and_false]
      · simp [hy]

/-- The outer loop extends the agreement with the Richardson recursion column by column. -/
theorem rombergCols_spec (m : Nat) (T : Nat → α) (r : Nat) :
    ∀ (k : Nat) (I : Table α), I.dim = m → k + 1 + r = m →
      (∀ y, y < k + 1 → ∀ x, x + y < m → I.cell x y = rombergRef T x y) →
      ∃ I1, rombergCols (m : Int) r (k + 1) I = some I1 ∧ I1.dim = m ∧
        ∀ y, y < k + 1 + r → ∀ x, x + y < m → I1.cell x y = rombergRef T x y := by
  induction r with
  | zero =>
    intro k I hd _ hinv
    exact ⟨I, rfl, hd, fun y hy x hx => hinv y (by omega) x hx⟩
  | succ r ih =>
    intro k I hd hkr hinv
    have hcnt : ((m : Int) - ((k + 1 : Nat) : Int)).toNat = m - (k + 1) := by omega
    obtain ⟨I1, e1, d1, c1⟩ := rombergRow_spec k (m - (k + 1)) 0 I (by omega)
    obtain ⟨I2, e2, d2, c2⟩ := ih (k + 1) I1 (by omega) (by omega) (by
      intro y hy x hx
      rw [c1 x y]
      by_cases hyk : y = k + 1
      · subst hyk
        have hx2 : 0 ≤ x ∧ x < 0 + (m - (k + 1)) := by omega
        rw [if_pos ⟨rfl, hx2⟩, hinv k (by omega) (x + 1) (by omega), hinv k (by omega) x (by omega)]
        rfl
      · rw [if_neg (fun h => hyk h.1)]
        exact hinv y (by omega) x hx)
    refine ⟨I2, ?_, d2, fun y hy x hx => c2 y (by omega) x hx⟩
    rw [rombergCols, hcnt, e1]
    exact e2

/-- With `1 <= max_iter <= 32` every table access is in range, every shift is defined, and
`romberg_solver` returns the entry `(0, max_iter - 1)` of the Richardson recursion over the
trapezoid values with `1 << i` subintervals. -/
theorem romberg_solver_eq_ref (f : α → α) (a b : α) (m : Nat) (hm : m + 1 ≤ 32) :
    romberg_solver f a b ((m + 1 : Nat) : Int)
      = some (rombergRef (fun i => trapezoidal_solver f a b (shlVal i)) 0 m) := by
  obtain ⟨I1, e1, d1, c1⟩ := rombergInit_spec f a b (m + 1) 0
    ⟨m + 1, fun _ _ => (0.0 : α)⟩ (by simp) (by omega)
  obtain ⟨I2, e2, d2, c2⟩ := rombergCols_spec (m + 1)
    (fun i => trapezoidal_solver f a b (shlVal i)) m 0 I1 d1 (by omega) (by
      intro y hy x hx
      have hy0 : y = 0 := by omega
      subst hy0
      rw [c1 x 0, if_pos ⟨rfl, by omega, by omega⟩]
      rfl)
  have hneg : ¬ (((m + 1 : Nat) : Int) < 0) := by omega
  have h1 : ((m + 1 : Nat) : Int).toNat = m + 1 := by omega
  have h2 : (((m + 1 : Nat) : Int) - 1).toNat = m := by omega
  have h3 : (((m + 1 : Nat) : Int) - 1) = ((m : Nat) : Int) := by omega
  rw [romberg_solver, if_neg hneg, h1, e1]
  simp only []
  rw [h2, e2]
  simp only []
  rw [h3, show (0 : Int) = ((0 : Nat) : Int) from rfl,
    Table.get_natCast I2 0 m (by omega) (by omega), c2 m (by omega) 0 (by omega)]


theorem shlVal_of_le (i : Nat) (h : i ≤ 30) : shlVal i = 2 ^ i := by
  have h1 : (2 : Int) ^ i ≤ 2 ^ 30 := pow_le_pow_right₀ (by norm_num) h
  have h0 : (0 : Int) < 2 ^ i := by positivity
  rw [shlVal, Int.emod_eq_of_lt (by omega) (by omega)]
  ring

theorem shlVal_31 : shlVal 31 = -2147483648 := by decide

theorem four_pow_sub_one_pos (k : Nat) : (0 : α) < (4 : α) ^ (k + 1) - 1.0 := by
  have h : (1 : α) < (4 : α) ^ (k + 1) := one_lt_pow₀ (by norm_num) (by omega)
  norm_num
  exact h

/-- The trapezoid loop over a constant integrand. -/
theorem trapLoop_const (c a h : α) (r : Nat) (i : Int) (s : α) :
    trapLoop (fun _ : α => c) a h r i s = s + (r : α) * c := by
  induction r generalizing i s with
  | zero => simp [trapLoop]
  | succ r ih =>
    rw [trapLoop, ih]
    push_cast
    ring

/-- The trapezoidal rule is exact on constants, for every `n >= 1`. -/
theorem trapezoidal_const (c a b : α) (n : Int) (hn : 1 ≤ n) :
    trapezoidal_solver (fun _ : α => c) a b n = c * (b - a) := by
  obtain ⟨m, rfl⟩ : ∃ m : Nat, n = (m : Int) + 1 := ⟨(n - 1).toNat, by omega⟩
  have hm : ((m : α) + 1) ≠ 0 := by positivity
  simp only [trapezoidal_solver, add_sub_cancel_right, Int.toNat_ofNat, trapLoop_const]
  push_cast
  field_simp
  ring

/-- The trapezoid loop over the square on a grid starting at `0`. -/
theorem trapLoop_sq (h : α) (r : Nat) (i : Int) (s : α) :
    trapLoop (fun x : α => x ^ 2) 0 h r i s
      = s + h ^ 2 * ((r : α) * (i : α) ^ 2 + (i : α) * (r : α) * ((r : α) - 1)
          + ((r : α) - 1) * (r : α) * (2 * (r : α) - 1) / 6) := by
  induction r generalizing i s with
  | zero => simp [trapLoop]
  | succ r ih =>
    rw [trapLoop, ih]
    push_cast
    ring

/-- The trapezoidal rule on `x^2` over `[0, 3]` with `n >= 1` subintervals. -/
theorem trapezoidal_sq (n : Int) (hn : 1 ≤ n) :
    trapezoidal_solver (fun x : α => x ^ 2) 0 3 n = 9 + 9 / (2 * (n : α) ^ 2) := by
  obtain ⟨m, rfl⟩ : ∃ m : Nat, n = (m : Int) + 1 := ⟨(n - 1).toNat, by omega⟩
  have hm : ((m : α) + 1) ≠ 0 := by positivity
  simp only [trapezoidal_solver, add_sub_cancel_right, Int.toNat_ofNat, trapLoop_sq]
  push_cast
  field_simp
  ring

/-- A trapezoid call with a negative number of subintervals skips the loop. -/
theorem trapezoidal_neg (f : α → α) (a b : α) (n : Int) (hn : n < 0) :
    trapezoidal_solver f a b n = (b - a) / (n : α) * (0.5 * (f a + f b)) := by
  have h0 : (n - 1).toNat = 0 := by omega
  simp [trapezoidal_solver, h0, trapLoop]

/-- A first column that is constant up to row `N` gives a constant triangle. -/
theorem rombergRef_const (T : Nat → α) (C : α) (N : Nat) (hT : ∀ j, j ≤ N → T j = C) :
    ∀ k j, j + k ≤ N → rombergRef T j k = C := by
  intro k
  induction k with
  | zero => intro j hj; exact hT j (by omega)
  | succ k ih =>
    intro j hj
    have hp : (0 : α) < (4 : α) ^ (k + 1) - 1.0 := four_pow_sub_one_pos k
    rw [rombergRef, ih (j + 1) (by omega), ih j (by omega), div_eq_iff (ne_of_gt hp)]
    norm_num
    ring

/-- A first column of the form `C + e / 4^j` is extrapolated to `C` by the first Richardson
step, and stays `C` afterwards. -/
theorem rombergRef_quadratic (T : Nat → α) (C e : α) (N : Nat)
    (hT : ∀ j, j ≤ N → T j = C + e / (4 : α) ^ j) :
    ∀ k j, j + (k + 1) ≤ N → rombergRef T j (k + 1) = C := by
  intro k
  induction k with
  | zero =>
    intro j hj
    have h4 : (4 : α) ^ j ≠ 0 := by positivity
    rw [rombergRef, rombergRef, rombergRef, hT j (by omega), hT (j + 1) (by omega)]
    norm_num
    field_simp
    ring
  | succ k ih =>
    intro j hj
    have hp : (0 : α) < (4 : α) ^ (k + 1 + 1) - 1.0 := four_pow_sub_one_pos (k + 1)
    rw [rombergRef, ih (j + 1) (by omega), ih j (by omega), div_eq_iff (ne_of_gt hp)]
    norm_num
    ring

/-- If the triangle is at least `C` wherever `j + k <= N` and the first column drops below `C`
in row `N + 1`, the whole anti-diagonal `j + k = N + 1` is below `C`. -/
theorem rombergRef_lt_of_bad_row (T : Nat → α) (C : α) (N : Nat)
    (hge : ∀ k j, j + k ≤ N → C ≤ rombergRef T j k) (hbad : T (N + 1) < C) :
    ∀ k j, j + k = N + 1 → rombergRef T j k < C := by
  intro k
  induction k with
  | zero =>
    intro j hj
    have : j = N + 1 := by omega
    subst this
    exact hbad
  | succ k ih =>
    intro j hj
    have hp : (0 : α) < (4 : α) ^ (k + 1) - 1.0 := four_pow_sub_one_pos k
    have h1 := ih (j + 1) (by omega)
    have h2 := hge k j (by omega)
    have h4 : (0 : α) < (4 : α) ^ (k + 1) := by positivity
    rw [rombergRef, div_lt_iff₀ hp]
    have h5 : (4 : α) ^ (k + 1) * rombergRef T (j + 1) k < (4 : α) ^ (k + 1) * C :=
      mul_lt_mul_of_pos_left h1 h4
    have h6 : C * ((4 : α) ^ (k + 1) - 1.0) = (4 : α) ^ (k + 1) * C - C := by
      norm_num
      ring
    rw [h6]
    linarith


/-- The first Romberg column for `x^2` over `[0, 3]`, rows `0 .. 30`. -/
theorem trapezoidal_sq_shl (j : Nat) (hj : j ≤ 30) :
    trapezoidal_solver (fun x : α => x ^ 2) 0 3 (shlVal j) = 9 + (9 / 2) / (4 : α) ^ j := by
  have h1 : (1 : Int) ≤ 2 ^ j := one_le_pow₀ (by norm_num)
  have h4 : (4 : α) ^ j = ((2 : α) ^ j) ^ 2 := by
    rw [← pow_mul, mul_comm, pow_mul]; norm_num
  rw [shlVal_of_le j hj, trapezoidal_sq _ h1, h4]
  push_cast
  field_simp

/-- The first Romberg column for a constant, rows `0 .. 30`. -/
theorem trapezoidal_const_shl (c a b : α) (j : Nat) (hj : j ≤ 30) :
    trapezoidal_solver (fun _ : α => c) a b (shlVal j) = c * (b - a) := by
  have h1 : (1 : Int) ≤ 2 ^ j := one_le_pow₀ (by norm_num)
  rw [shlVal_of_le j hj, trapezoidal_const _ _ _ _ h1]

/-! ## C2: Romberg on `x^2` -/

/-- C2, as amended: for every `maxLevels` with `2 <= maxLevels <= 31` (the levels for which every
`1 << i` is the positive `int` `2^i`), `romberg_solver` applied to `x^2` over `[0, 3]` returns
exactly `9`. -/
theorem romberg_square_exact (max_iter : Int) (h2 : 2 ≤ max_iter) (h31 : max_iter ≤ 31) :
    romberg_solver (fun x : α => x ^ 2) 0 3 max_iter = some 9 := by
  obtain ⟨k, rfl⟩ : ∃ k : Nat, max_iter = ((k + 1 + 1 : Nat) : Int) :=
    ⟨(max_iter - 2).toNat, by omega⟩
  rw [romberg_solver_eq_ref _ _ _ (k + 1) (by omega)]
  rw [rombergRef_quadratic _ 9 (9 / 2) 30 (fun j hj => trapezoidal_sq_shl j hj) k 0 (by omega)]

/-- Witness for C2 as amended: three levels, over the rationals. -/
theorem romberg_square_exact_witness :
    (2 : Int) ≤ 3 ∧ (3 : Int) ≤ 31 ∧ romberg_solver (fun x : ℚ => x ^ 2) 0 3 3 = some 9 :=
  ⟨by decide, by decide, romberg_square_exact 3 (by decide) (by decide)⟩

/-- Counterexample to C2 as stated: with `maxLevels = 32` the last row of the first column is
`trapezoidal_solver(f, 0, 3, 1 << 31)`, called with the negative `int` `-2^31`, and the value
returned is not `9`. -/
theorem romberg_square_level_32 :
    (2 : Int) ≤ 32 ∧ romberg_solver (fun x : ℝ => x ^ 2) 0 3 32 ≠ some 9 := by
  refine ⟨by decide, ?_⟩
  have h := romberg_solver_eq_ref (fun x : ℝ => x ^ 2) 0 3 31 (by omega)
  have hlt := rombergRef_lt_of_bad_row
    (fun i => trapezoidal_solver (fun x : ℝ => x ^ 2) 0 3 (shlVal i)) 9 30
    (by
      intro k j hjk
      cases k with
      | zero =>
        rw [rombergRef, trapezoidal_sq_shl j (by omega)]
        have : (0 : ℝ) ≤ (9 / 2) / (4 : ℝ) ^ j := by positivity
        linarith
      | succ k =>
        rw [rombergRef_quadratic _ 9 (9 / 2) 30 (fun j hj => trapezoidal_sq_shl j hj) k j
          (by omega)])
    (by
      show trapezoidal_solver _ 0 _ (shlVal 31) < _
      rw [shlVal_31, trapezoidal_neg _ _ _ _ (by decide)]
      norm_num)
    31 0 (by omega)
  have h32 : ((31 + 1 : Nat) : Int) = 32 := by norm_num
  rw [h32] at h
  rw [h]
  intro hc
  exact absurd (Option.some.inj hc) (ne_of_lt hlt)

/-! ## C10: Romberg on constants -/

/-- C10, as amended: for `v_opt = 1` and `c1 = c2 = 1` the energy computed by `main` (six levels,
`[0, 10]`) is `20`; and for any constant integrand `c`, any `a`, `b` and any `max_iter` with
`1 <= max_iter <= 31`, `romberg_solver` returns `c * (b - a)` exactly. -/
theorem romberg_constant_exact :
    (∀ (sin : α → α) (pi : α), energy_romberg sin pi 1 1 1 = some 20) ∧
    ∀ (c a b : α) (max_iter : Int), 1 ≤ max_iter → max_iter ≤ 31 →
      romberg_solver (fun _ : α => c) a b max_iter = some (c * (b - a)) := by
  have key : ∀ (c a b : α) (max_iter : Int), 1 ≤ max_iter → max_iter ≤ 31 →
      romberg_solver (fun _ : α => c) a b max_iter = some (c * (b - a)) := by
    intro c a b max_iter h1 h31
    obtain ⟨k, rfl⟩ : ∃ k : Nat, max_iter = ((k + 1 : Nat) : Int) :=
      ⟨(max_iter - 1).toNat, by omega⟩
    rw [romberg_solver_eq_ref _ _ _ k (by omega)]
    rw [rombergRef_const _ (c * (b - a)) 30 (fun j hj => trapezoidal_const_shl c a b j hj) k 0
      (by omega)]
  refine ⟨?_, key⟩
  intro sin pi
  have hf : power_maneuver_time sin pi (1 : α) 1 1 = fun _ : α => 2 := by
    funext t
    have hv : velocity_maneuver sin pi (1 : α) t = 1 := by
      have h1 : (1.0 : α) = 1 := by norm_num
      simp [velocity_maneuver, v_maneuver_awal, h1]
    have hg : ¬ ((1 : α) ≤ 1e-9) := by norm_num
    rw [power_maneuver_time, hv, power_consumption, if_neg hg]
    norm_num
  rw [energy_romberg, hf, romberg_default_max_iter, T_maneuver,
    key 2 0 10.0 6 (by decide) (by decide)]
  norm_num

/-- Witness for C10 as amended: the constant `3` over `[1, 5]` with four levels. -/
theorem romberg_constant_exact_witness :
    (1 : Int) ≤ 4 ∧ (4 : Int) ≤ 31 ∧
    romberg_solver (fun _ : ℚ => 3) 1 5 4 = some (3 * (5 - 1)) :=
  ⟨by decide, by decide, romberg_constant_exact.2 3 1 5 4 (by decide) (by decide)⟩

/-- Counterexample to C10 as stated: with `max_iter = 32` and the constant integrand `1` over
`[0, 1]`, the value returned is not `1 * (1 - 0)`. -/
theorem romberg_constant_level_32 :
    (1 : Int) ≤ 32 ∧ romberg_solver (fun _ : ℝ => 1) 0 1 32 ≠ some (1 * (1 - 0)) := by
  refine ⟨by decide, ?_⟩
  have h := romberg_solver_eq_ref (fun _ : ℝ => 1) 0 1 31 (by omega)
  have hlt := rombergRef_lt_of_bad_row
    (fun i => trapezoidal_solver (fun _ : ℝ => 1) 0 1 (shlVal i)) 1 30
    (by
      intro k j hjk
      rw [rombergRef_const _ (1 * (1 - 0)) 30
        (fun j hj => trapezoidal_const_shl (1 : ℝ) 0 1 j hj) k j hjk]
      norm_num)
    (by
      show trapezoidal_solver _ 0 _ (shlVal 31) < _
      rw [shlVal_31, trapezoidal_neg _ _ _ _ (by decide)]
      norm_num)
    31 0 (by omega)
  have h32 : ((31 + 1 : Nat) : Int) = 32 := by norm_num
  rw [h32] at h
  rw [h]
  intro hc
  have := Option.some.inj hc
  linarith

/-! ## C11: the difference quotient of the power at `v = 1` -/

/-- C11: for `c1 = c2 = 1`, `high_accuracy_diff` applied to `v -> power_consumption(v, 1, 1)` at
`x = 1` with the step `h = 0.01` of `main` is within `1e-6` of the analytic derivative
`3*1^2 - 1/1^2`, which is `2`. -/
theorem diff_power_at_one :
    |high_accuracy_diff (fun v : α => power_consumption v 1 1) 1 0.01
        - (3 * 1 ^ 2 - 1 / 1 ^ 2)| ≤ 1e-6 ∧
    (3 * 1 ^ 2 - 1 / 1 ^ 2 : α) = 2 := by
  have h1 : power_consumption (1 + 0.01 : α) 1 1 = (1 + 0.01) ^ 3 + 1 / (1 + 0.01) := by
    rw [power_consumption_of_gt _ _ _ (by norm_num)]; ring
  have h2 : power_consumption (1 - 0.01 : α) 1 1 = (1 - 0.01) ^ 3 + 1 / (1 - 0.01) := by
    rw [power_consumption_of_gt _ _ _ (by norm_num)]; ring
  have h3 : power_consumption (1 + 2 * 0.01 : α) 1 1
      = (1 + 2 * 0.01) ^ 3 + 1 / (1 + 2 * 0.01) := by
    rw [power_consumption_of_gt _ _ _ (by norm_num)]; ring
  have h4 : power_consumption (1 - 2 * 0.01 : α) 1 1
      = (1 - 2 * 0.01) ^ 3 + 1 / (1 - 2 * 0.01) := by
    rw [power_consumption_of_gt _ _ _ (by norm_num)]; ring
  have hval : high_accuracy_diff (fun v : α => power_consumption v 1 1) 1 0.01
      = 49975003 / 24987501 := by
    simp only [high_accuracy_diff, h1, h2, h3, h4]
    norm_num
  refine ⟨?_, by norm_num⟩
  rw [hval, abs_le]
  constructor <;> norm_num

/-! ## C14, C19: the `v_next <= 0` exit -/

/-- C14: for `max_iter >= 1`, if `|df_drone(v0)| >= 1e-10` and the first Newton step gives
`v_next <= 0`, the solver returns `v0` with `converged = false`, through the `v_next <= 0` exit
of its first iteration, whatever the tolerance (so also when `|v_next - v0| < tolerance`). -/
theorem newton_nonphysical_step (c1 c2 v0 tol : α) (max_iter : Int) (hm : 1 ≤ max_iter)
    (hd : 1e-10 ≤ |df_drone v0 c1 c2|)
    (hn : v0 - f_drone v0 c1 c2 / df_drone v0 c1 c2 ≤ 0) :
    newton_raphson_solver c1 c2 v0 tol max_iter = (v0, false) ∧
    newtonTrace c1 c2 tol max_iter.toNat v0 = ([v0], NewtonExit.nonPhysical) := by
  obtain ⟨k, hk⟩ : ∃ k : Nat, max_iter.toNat = k + 1 := ⟨max_iter.toNat - 1, by omega⟩
  rw [newton_raphson_solver, hk, newtonLoop_succ, newtonTrace_succ, if_neg (not_lt.2 hd),
    if_pos hn, if_neg (not_lt.2 hd), if_pos hn]
  exact ⟨rfl, rfl⟩

/-- Witness for C14: `v0 = 0` and `tolerance = 2`, where the step `v_next = -1` has length
`1 < tolerance`. -/
theorem newton_nonphysical_step_witness :
    (1 : Int) ≤ 1 ∧ (1e-10 : ℚ) ≤ |df_drone (0 : ℚ) 1 1| ∧
    (0 : ℚ) - f_drone (0 : ℚ) 1 1 / df_drone (0 : ℚ) 1 1 ≤ 0 ∧
    |(0 : ℚ) - f_drone (0 : ℚ) 1 1 / df_drone (0 : ℚ) 1 1 - 0| < 2 ∧
    (newton_raphson_solver (1 : ℚ) 1 0 2 1 = (0, false) ∧
      newtonTrace (1 : ℚ) 1 2 (1 : Int).toNat 0 = ([0], NewtonExit.nonPhysical)) := by
  have hf : f_drone (0 : ℚ) 1 1 = 1e12 := f_drone_sentinel _ _ _ (by norm_num)
  have hdf : df_drone (0 : ℚ) 1 1 = 1e12 := df_drone_sentinel _ _ _ (by norm_num)
  have hd : (1e-10 : ℚ) ≤ |df_drone (0 : ℚ) 1 1| := by
    rw [hdf, abs_of_pos (by norm_num)]; norm_num
  have hn : (0 : ℚ) - f_drone (0 : ℚ) 1 1 / df_drone (0 : ℚ) 1 1 ≤ 0 := by
    rw [hf, hdf]; norm_num
  have ht : |(0 : ℚ) - f_drone (0 : ℚ) 1 1 / df_drone (0 : ℚ) 1 1 - 0| < 2 := by
    rw [hf, hdf]; norm_num
  exact ⟨le_refl 1, hd, hn, ht, newton_nonphysical_step 1 1 0 2 1 (le_refl 1) hd hn⟩

/-- C19: for `max_iter >= 1` and `v0 <= 1e-9`, both `f_drone` and `df_drone` return the sentinel
`1e12`, the step is `v_next = v0 - 1 <= 0`, and the solver returns `v0` with `converged = false`
through the `v_next <= 0` exit of its first iteration. -/
theorem newton_sentinel_abort (c1 c2 v0 tol : α) (max_iter : Int) (hm : 1 ≤ max_iter)
    (hv : v0 ≤ 1e-9) :
    f_drone v0 c1 c2 = 1e12 ∧ df_drone v0 c1 c2 = 1e12 ∧
    v0 - f_drone v0 c1 c2 / df_drone v0 c1 c2 = v0 - 1 ∧ v0 - 1 ≤ 0 ∧
    newton_raphson_solver c1 c2 v0 tol max_iter = (v0, false) ∧
    newtonTrace c1 c2 tol max_iter.toNat v0 = ([v0], NewtonExit.nonPhysical) := by
  have hf := f_drone_sentinel v0 c1 c2 hv
  have hdf := df_drone_sentinel v0 c1 c2 hv
  have hstep : v0 - f_drone v0 c1 c2 / df_drone v0 c1 c2 = v0 - 1 := by
    rw [hf, hdf]; norm_num
  have hle : v0 - 1 ≤ 0 := by
    have h9 : (1e-9 : α) ≤ 1 := by norm_num
    linarith
  have hd : ¬ |df_drone v0 c1 c2| < 1e-10 := by
    rw [hdf, abs_of_pos (by norm_num)]; norm_num
  have hn : v0 - f_drone v0 c1 c2 / df_drone v0 c1 c2 ≤ 0 := by rw [hstep]; exact hle
  obtain ⟨k, hk⟩ : ∃ k : Nat, max_iter.toNat = k + 1 := ⟨max_iter.toNat - 1, by omega⟩
  refine ⟨hf, hdf, hstep, hle, ?_, ?_⟩
  · rw [newton_raphson_solver, hk, newtonLoop_succ, if_neg hd, if_pos hn]
  · rw [hk, newtonTrace_succ, if_neg hd, if_pos hn]

/-- Witness for C19: `v0 = -3`. -/
theorem newton_sentinel_abort_witness :
    (1 : Int) ≤ 100 ∧ (-3 : ℚ) ≤ 1e-9 ∧
    (f_drone (-3 : ℚ) 1 1 = 1e12 ∧ df_drone (-3 : ℚ) 1 1 = 1e12 ∧
      (-3 : ℚ) - f_drone (-3 : ℚ) 1 1 / df_drone (-3 : ℚ) 1 1 = -3 - 1 ∧ (-3 : ℚ) - 1 ≤ 0 ∧
      newton_raphson_solver (1 : ℚ) 1 (-3) 0.0001 100 = (-3, false) ∧
      newtonTrace (1 : ℚ) 1 0.0001 (100 : Int).toNat (-3) = ([-3], NewtonExit.nonPhysical)) :=
  ⟨by decide, by norm_num, newton_sentinel_abort 1 1 (-3) 0.0001 100 (by decide) (by norm_num)⟩

/-! ## C15: `df_drone` is the derivative of `f_drone` -/

/-- C15: for every `c1`, `c2` and every `v > 1e-9`, `df_drone(v, c1, c2)` is the derivative with
respect to `v` of `f_drone(v, c1, c2)`. -/
theorem df_drone_is_derivative (c1 c2 v : ℝ) (hv : 1e-9 < v) :
    HasDerivAt (fun u : ℝ => f_drone u c1 c2) (df_drone v c1 c2) v := by
  have hv0 : v ≠ 0 := ne_of_gt (pos_of_gt_eps v hv)
  have hp : v ^ 3 ≠ 0 := pow_ne_zero 3 hv0
  have h1 : HasDerivAt (fun u : ℝ => 2 * c1 * u - 2 * c2 * (u ^ 3)⁻¹)
      (2 * c1 * 1 - 2 * c2 * (-(3 * v ^ 2) / (v ^ 3) ^ 2)) v := by
    have := ((hasDerivAt_id v).const_mul (2 * c1)).sub
      (((hasDerivAt_pow 3 v).inv hp).const_mul (2 * c2))
    simpa using this
  have h2 : (fun u : ℝ => f_drone u c1 c2) =ᶠ[nhds v]
      (fun u : ℝ => 2 * c1 * u - 2 * c2 * (u ^ 3)⁻¹) := by
    filter_upwards [Ioi_mem_nhds hv] with u hu
    rw [f_drone_of_gt u c1 c2 hu, div_eq_mul_inv]
    ring
  have h3 := h1.congr_of_eventuallyEq h2
  rw [df_drone_of_gt _ _ _ hv]
  convert h3 using 1
  field_simp
  ring

/-- Witness for C15: `v = 2`. -/
theorem df_drone_is_derivative_witness :
    (1e-9 : ℝ) < 2 ∧ HasDerivAt (fun u : ℝ => f_drone u 1 1) (df_drone 2 1 1) 2 :=
  ⟨by norm_num, df_drone_is_derivative 1 1 2 (by norm_num)⟩

/-! ## C16: when the `v_opt` passed on is positive -/

/-- A converged run returns a positive value. -/
theorem newton_converged_pos (c1 c2 v0 tol : α) (max_iter : Int)
    (hb : (newton_raphson_solver c1 c2 v0 tol max_iter).2 = true) :
    0 < (newton_raphson_solver c1 c2 v0 tol max_iter).1 := by
  have hpair : newtonLoop c1 c2 tol max_iter.toNat v0
      = ((newton_raphson_solver c1 c2 v0 tol max_iter).1, true) := by
    rw [← hb]; rfl
  obtain ⟨u, _, _, _, hpos, _⟩ := newtonLoop_converged c1 c2 tol (fun _ => True)
    (fun _ _ _ => trivial) max_iter.toNat v0 _ trivial hpair
  exact hpos

/-- The definition `main_v_opt` is `main_v_opt_with` for the exact quotient. -/
theorem main_v_opt_eq_with (pow : α → α → α) (c1 c2 v0 tol : α) (max_iter : Int) :
    main_v_opt pow c1 c2 v0 tol max_iter
      = main_v_opt_with (fun x y => x / y) pow c1 c2 v0 tol max_iter := rfl

/-- C16, as amended: for every `c1`, `c2`, `v0`, `tolerance` and `max_iter`, the `v_opt` that
`main` passes on is strictly positive whenever the quotient `c2 / c1` that `main` computes is
positive (`std::pow` of a positive number being positive): a converged solver value is a
`v_next` that passed the `v_next > 0` check, and the substituted value is `pow` of that
quotient. -/
theorem main_v_opt_positive (quot pow : α → α → α) (c1 c2 v0 tol : α) (max_iter : Int)
    (hpow : ∀ x : α, 0 < x → 0 < pow x 0.25) (hq : 0 < quot c2 c1) :
    0 < main_v_opt_with quot pow c1 c2 v0 tol max_iter ∧
    ((newton_raphson_solver c1 c2 v0 tol max_iter).2 = true →
      0 < (newton_raphson_solver c1 c2 v0 tol max_iter).1) := by
  refine ⟨?_, newton_converged_pos c1 c2 v0 tol max_iter⟩
  simp only [main_v_opt_with, select_v_opt]
  cases hb : (newton_raphson_solver c1 c2 v0 tol max_iter).2
  · simpa using hpow _ hq
  · simpa using newton_converged_pos c1 c2 v0 tol max_iter hb

/-- Witness for C16 as amended: `c1 = c2 = 1` with the start `v0 = -5`. -/
theorem main_v_opt_positive_witness :
    (∀ x : ℝ, 0 < x → 0 < (fun x y : ℝ => x ^ y) x 0.25) ∧
    0 < machine_quot (1 : ℝ) 1 ∧
    0 < main_v_opt_with machine_quot (fun x y : ℝ => x ^ y) 1 1 (-5) 0.0001 100 := by
  have hpow : ∀ x : ℝ, 0 < x → 0 < (fun x y : ℝ => x ^ y) x 0.25 :=
    fun x hx => Real.rpow_pos_of_pos hx _
  have hq : 0 < machine_quot (1 : ℝ) 1 := by
    have h : ¬ (|(1 : ℝ) / 1| ≤ 1 / 2 ^ 1075) := by
      rw [div_one, abs_one, not_le, div_lt_one (by positivity)]
      exact one_lt_pow₀ (by norm_num) (by norm_num)
    rw [machine_quot, if_neg h]
    norm_num
  exact ⟨hpow, hq, (main_v_opt_positive machine_quot _ 1 1 (-5) 0.0001 100 hpow hq).1⟩

/-- Counterexample to C16 as stated: for `c1 = 1e200`, `c2 = 1e-200`, `max_iter = 0` the solver
does not converge, the quotient `c2 / c1 = 1e-400` underflows to zero, and `main` passes
`v_opt = pow(0, 0.25) = 0` on. -/
theorem main_v_opt_zero_on_underflow :
    (0 : ℝ) < 1e200 ∧ (0 : ℝ) < 1e-200 ∧
    main_v_opt_with machine_quot (fun x y : ℝ => x ^ y) 1e200 1e-200 1 0.0001 0 = 0 := by
  refine ⟨by norm_num, by norm_num, ?_⟩
  have hq : machine_quot (1e-200 : ℝ) 1e200 = 0 := by
    have h : |(1e-200 : ℝ) / 1e200| ≤ 1 / 2 ^ 1075 := by
      rw [abs_of_pos (by positivity)]
      norm_num
    rw [machine_quot, if_pos h]
  have hs : newton_raphson_solver (1e200 : ℝ) 1e-200 1 0.0001 0 = (1, false) := rfl
  rw [main_v_opt_with, hs, hq, select_v_opt]
  simp only [Bool.not_false, if_true]
  exact Real.zero_rpow (by norm_num)

/-! ## C17: the velocity ramp -/

/-- C17: the ramp `v(t) = 1 + (v_opt - 1) * sin^2(pi * t / (2 * T))` with `T = 10` has
`v(0) = 1`, `v(T) = v_opt`, and lies between `min(1, v_opt)` and `max(1, v_opt)` for every `t`;
so for `v_opt > 1e-9` the integrand never takes the `v <= 1e-9` branch of
`power_consumption`. -/
theorem velocity_maneuver_eases (v_opt : ℝ) :
    velocity_maneuver Real.sin Real.pi v_opt 0 = 1 ∧
    velocity_maneuver Real.sin Real.pi v_opt T_maneuver = v_opt ∧
    (∀ t : ℝ, min 1 v_opt ≤ velocity_maneuver Real.sin Real.pi v_opt t ∧
      velocity_maneuver Real.sin Real.pi v_opt t ≤ max 1 v_opt) ∧
    (1e-9 < v_opt → ∀ t c1 c2 : ℝ,
      1e-9 < velocity_maneuver Real.sin Real.pi v_opt t ∧
      power_maneuver_time Real.sin Real.pi c1 c2 v_opt t
        = c1 * velocity_maneuver Real.sin Real.pi v_opt t ^ 3
          + c2 / velocity_maneuver Real.sin Real.pi v_opt t) := by
  have h1 : (1.0 : ℝ) = 1 := by norm_num
  have hform : ∀ t : ℝ, velocity_maneuver Real.sin Real.pi v_opt t
      = 1 + (v_opt - 1) * Real.sin (Real.pi * t / (2.0 * T_maneuver)) ^ 2 := by
    intro t
    simp only [velocity_maneuver, v_maneuver_awal, h1]
    ring
  have hbetween : ∀ t : ℝ, min 1 v_opt ≤ velocity_maneuver Real.sin Real.pi v_opt t ∧
      velocity_maneuver Real.sin Real.pi v_opt t ≤ max 1 v_opt := by
    intro t
    rw [hform t]
    have hq0 : 0 ≤ Real.sin (Real.pi * t / (2.0 * T_maneuver)) ^ 2 := sq_nonneg _
    have hq1 : Real.sin (Real.pi * t / (2.0 * T_maneuver)) ^ 2 ≤ 1 := Real.sin_sq_le_one _
    rcases le_total 1 v_opt with h | h
    · rw [min_eq_left h, max_eq_right h]
      constructor <;> nlinarith
    · rw [min_eq_right h, max_eq_left h]
      constructor <;> nlinarith
  refine ⟨?_, ?_, hbetween, ?_⟩
  · rw [hform 0]
    simp
  · rw [hform T_maneuver]
    have harg : Real.pi * T_maneuver / (2.0 * T_maneuver) = Real.pi / 2 := by
      simp only [T_maneuver]
      norm_num
      ring
    rw [harg, Real.sin_pi_div_two]
    ring
  · intro hv t c1 c2
    have hlow : 1e-9 < velocity_maneuver Real.sin Real.pi v_opt t := by
      have hmin : (1e-9 : ℝ) < min 1 v_opt := lt_min (by norm_num) hv
      exact lt_of_lt_of_le hmin (hbetween t).1
    exact ⟨hlow, by rw [power_maneuver_time, power_consumption_of_gt _ _ _ hlow]⟩

/-- Witness for C17: `v_opt = 2`, `t = 5`. -/
theorem velocity_maneuver_eases_witness :
    (1e-9 : ℝ) < 2 ∧
    (1e-9 : ℝ) < velocity_maneuver Real.sin Real.pi 2 5 ∧
    power_maneuver_time Real.sin Real.pi 1 1 2 5
      = 1 * velocity_maneuver Real.sin Real.pi 2 5 ^ 3
        + 1 / velocity_maneuver Real.sin Real.pi 2 5 :=
  ⟨by norm_num, (velocity_maneuver_eases 2).2.2.2 (by norm_num) 5 1 1⟩

/-! ## Monotone iterates below the root, in exact arithmetic (C18) -/

/-- Started in `(1e-9, r]`, the recorded iterates start with the start value, never decrease,
stay in `[v, r]`, and the loop never leaves through the `v_next <= 0` exit. -/
theorem newtonTrace_monotone (c1 r tol : α) (hc : 0 < c1) (hr : 0 < r) (n : Nat) :
    ∀ v : α, 1e-9 < v → v ≤ r →
      (∃ rest, (newtonTrace c1 (c1 * r ^ 4) tol n v).1 = v :: rest) ∧
      List.Chain' (fun x y : α => x ≤ y) (newtonTrace c1 (c1 * r ^ 4) tol n v).1 ∧
      (∀ x ∈ (newtonTrace c1 (c1 * r ^ 4) tol n v).1, v ≤ x ∧ x ≤ r) ∧
      (newtonTrace c1 (c1 * r ^ 4) tol n v).2 ≠ NewtonExit.nonPhysical := by
  induction n with
  | zero =>
    intro v _ hvr
    simp [newtonTrace, hvr]
  | succ n ih =>
    intro v hv hvr
    have hv0 : 0 < v := pos_of_gt_eps v hv
    have hcl := newton_step_closed v c1 r hc hr hv
    have hge := newton_step_ge_self v r hv0 hr hvr
    have hle := newton_step_le_root v r hv0 hr
    rw [← hcl] at hge hle
    have hpos : ¬ (v - f_drone v c1 (c1 * r ^ 4) / df_drone v c1 (c1 * r ^ 4) ≤ 0) :=
      not_le.2 (lt_of_lt_of_le hv0 hge)
    rw [newtonTrace_succ]
    by_cases hd : |df_drone v c1 (c1 * r ^ 4)| < 1e-10
    · simp only [if_pos hd]
      simp [hvr]
    · simp only [if_neg hd, if_neg hpos]
      by_cases ht : |v - f_drone v c1 (c1 * r ^ 4) / df_drone v c1 (c1 * r ^ 4) - v| < tol
      · simp only [if_pos ht]
        refine ⟨⟨_, rfl⟩, ?_, ?_, by simp⟩
        · simp [hge]
        · intro x hx
          simp only [List.mem_cons, List.mem_singleton, List.not_mem_nil, or_false] at hx
          rcases hx with rfl | rfl
          · exact ⟨le_refl _, hvr⟩
          · exact ⟨hge, hle⟩
      · simp only [if_neg ht]
        obtain ⟨⟨rest, hrest⟩, hchain, hmem, hexit⟩ :=
          ih (v - f_drone v c1 (c1 * r ^ 4) / df_drone v c1 (c1 * r ^ 4))
            (lt_of_lt_of_le hv hge) hle
        refine ⟨⟨_, rfl⟩, ?_, ?_, hexit⟩
        · rw [hrest] at hchain ⊢
          exact List.Chain'.cons hge hchain
        · intro x hx
          rcases List.mem_cons.1 hx with rfl | hx
          · exact ⟨le_refl _, hvr⟩
          · exact ⟨le_trans hge (hmem x hx).1, (hmem x hx).2⟩

/-- Started in `(1e-9, r]`, the value returned lies in `[v, r]`. -/
theorem newtonLoop_between (c1 r tol : α) (hc : 0 < c1) (hr : 0 < r) (n : Nat) :
    ∀ v : α, 1e-9 < v → v ≤ r →
      v ≤ (newtonLoop c1 (c1 * r ^ 4) tol n v).1 ∧
      (newtonLoop c1 (c1 * r ^ 4) tol n v).1 ≤ r := by
  induction n with
  | zero =>
    intro v _ hvr
    simp [newtonLoop, hvr]
  | succ n ih =>
    intro v hv hvr
    have hv0 : 0 < v := pos_of_gt_eps v hv
    have hcl := newton_step_closed v c1 r hc hr hv
    have hge := newton_step_ge_self v r hv0 hr hvr
    have hle := newton_step_le_root v r hv0 hr
    rw [← hcl] at hge hle
    have hpos : ¬ (v - f_drone v c1 (c1 * r ^ 4) / df_drone v c1 (c1 * r ^ 4) ≤ 0) :=
      not_le.2 (lt_of_lt_of_le hv0 hge)
    rw [newtonLoop_succ]
    by_cases hd : |df_drone v c1 (c1 * r ^ 4)| < 1e-10
    · simp only [if_pos hd]
      exact ⟨le_refl _, hvr⟩
    · simp only [if_neg hd, if_neg hpos]
      by_cases ht : |v - f_drone v c1 (c1 * r ^ 4) / df_drone v c1 (c1 * r ^ 4) - v| < tol
      · simp only [if_pos ht]
        exact ⟨hge, hle⟩
      · simp only [if_neg ht]
        have h := ih (v - f_drone v c1 (c1 * r ^ 4) / df_drone v c1 (c1 * r ^ 4))
          (lt_of_lt_of_le hv hge) hle
        exact ⟨le_trans hge h.1, h.2⟩

/-- The statement of C18 read in exact real arithmetic: for `c1, c2 > 0` with root
`v* = (c2/c1)^(1/4)` and a start `1e-9 < v0 <= v*`, for every tolerance and `max_iter`, the
recorded iterates never decrease and stay in `[v0, v*]`, the loop never leaves through the
`v_next <= 0` exit, and the value returned lies in `[v0, v*]`.  In binary64 an overflow of
`c2/v^3` makes the iterate `NaN` and rounding can carry an iterate past the root, which this
reading of `double` does not see. -/
theorem newton_iterates_monotone (c1 c2 v0 tol : ℝ) (max_iter : Int) (h1 : 0 < c1) (h2 : 0 < c2)
    (hv : 1e-9 < v0) (hvr : v0 ≤ (c2 / c1) ^ ((1 : ℝ) / 4)) :
    List.Chain' (fun x y : ℝ => x ≤ y) (newtonTrace c1 c2 tol max_iter.toNat v0).1 ∧
    (∀ x ∈ (newtonTrace c1 c2 tol max_iter.toNat v0).1,
      v0 ≤ x ∧ x ≤ (c2 / c1) ^ ((1 : ℝ) / 4)) ∧
    (newtonTrace c1 c2 tol max_iter.toNat v0).2 ≠ NewtonExit.nonPhysical ∧
    v0 ≤ (newton_raphson_solver c1 c2 v0 tol max_iter).1 ∧
    (newton_raphson_solver c1 c2 v0 tol max_iter).1 ≤ (c2 / c1) ^ ((1 : ℝ) / 4) := by
  have hc := coeff_eq_of_root c1 c2 h1 h2
  have hr : 0 < (c2 / c1) ^ ((1 : ℝ) / 4) := Real.rpow_pos_of_pos (div_pos h2 h1) _
  have ht := newtonTrace_monotone c1 ((c2 / c1) ^ ((1 : ℝ) / 4)) tol h1 hr max_iter.toNat v0 hv hvr
  have hl := newtonLoop_between c1 ((c2 / c1) ^ ((1 : ℝ) / 4)) tol h1 hr max_iter.toNat v0 hv hvr
  rw [← hc] at ht hl
  exact ⟨ht.2.1, ht.2.2.1, ht.2.2.2, hl.1, hl.2⟩

/-- An instance of `newton_iterates_monotone`: `c1 = c2 = 1`, `v0 = 1/2`. -/
theorem newton_iterates_monotone_witness :
    (0 : ℝ) < 1 ∧ (0 : ℝ) < 1 ∧ (1e-9 : ℝ) < 1 / 2 ∧ (1 / 2 : ℝ) ≤ ((1 : ℝ) / 1) ^ ((1 : ℝ) / 4) ∧
    (newtonTrace (1 : ℝ) 1 0.0001 (100 : Int).toNat (1 / 2)).2 ≠ NewtonExit.nonPhysical ∧
    (1 / 2 : ℝ) ≤ (newton_raphson_solver (1 : ℝ) 1 (1 / 2) 0.0001 100).1 ∧
    (newton_raphson_solver (1 : ℝ) 1 (1 / 2) 0.0001 100).1 ≤ ((1 : ℝ) / 1) ^ ((1 : ℝ) / 4) :=
  ⟨one_pos, one_pos, by norm_num, by norm_num,
    (newton_iterates_monotone 1 1 (1 / 2) 0.0001 100 one_pos one_pos (by norm_num)
      (by norm_num)).2.2⟩

/-! ## C13: the table against the recurrence of the specification -/

/-- The recursion of the specification is the Richardson recursion over the column of trapezoid
values with `2^j` subintervals. -/
theorem rombergSpec_eq_ref (f : α → α) (a b : α) (k : Nat) :
    ∀ j, rombergSpec f a b j k = rombergRef (fun i => trapezoidal_solver f a b (2 ^ i)) j k := by
  induction k with
  | zero => intro j; rfl
  | succ k ih =>
    intro j
    have h1 : (1.0 : α) = 1 := by norm_num
    rw [rombergSpec, rombergRef, ih, ih, h1]

/-- The Richardson recursion at `(j, k)` only looks at rows `j .. j + k` of the first column. -/
theorem rombergRef_congr (T U : Nat → α) (N : Nat) (h : ∀ i, i ≤ N → T i = U i) (k : Nat) :
    ∀ j, j + k ≤ N → rombergRef T j k = rombergRef U j k := by
  induction k with
  | zero => intro j hj; exact h j (by omega)
  | succ k ih =>
    intro j hj
    rw [rombergRef, rombergRef, ih (j + 1) (by omega), ih j (by omega)]

/-- With 32 levels and a positive constant integrand over `[0, 1]`, the value returned is below
the constant. -/
theorem romberg_const_level_32_lt (c : α) (hc : 0 < c) :
    ∃ v, romberg_solver (fun _ : α => c) 0 1 32 = some v ∧ v < c := by
  have h := romberg_solver_eq_ref (fun _ : α => c) 0 1 31 (by omega)
  have hlt := rombergRef_lt_of_bad_row
    (fun i => trapezoidal_solver (fun _ : α => c) 0 1 (shlVal i)) c 30
    (by
      intro k j hjk
      rw [rombergRef_const _ (c * (1 - 0)) 30
        (fun j hj => trapezoidal_const_shl c 0 1 j hj) k j hjk]
      norm_num)
    (by
      show trapezoidal_solver _ 0 _ (shlVal 31) < _
      rw [shlVal_31, trapezoidal_neg _ _ _ _ (by decide)]
      norm_num
      have : (0 : α) < c / 2147483648 := by positivity
      linarith)
    31 0 (by omega)
  have h32 : ((31 + 1 : Nat) : Int) = 32 := by norm_num
  rw [h32] at h
  exact ⟨_, h, hlt⟩

/-- C13, as amended: for every `f`, `a`, `b` and `1 <= max_iter <= 31`,
`romberg_solver(f, a, b, max_iter)` equals `R(0, max_iter - 1)` for the reference recursion
`R(j,0) = trapezoidal_solver(f, a, b, 2^j)`,
`R(j,k) = (4^k * R(j+1,k-1) - R(j,k-1)) / (4^k - 1)`. -/
theorem romberg_refines_spec (f : α → α) (a b : α) (max_iter : Int) (h1 : 1 ≤ max_iter)
    (h31 : max_iter ≤ 31) :
    romberg_solver f a b max_iter = some (rombergSpec f a b 0 (max_iter - 1).toNat) := by
  obtain ⟨m, rfl⟩ : ∃ m : Nat, max_iter = ((m + 1 : Nat) : Int) :=
    ⟨(max_iter - 1).toNat, by omega⟩
  have hm : (((m + 1 : Nat) : Int) - 1).toNat = m := by omega
  rw [romberg_solver_eq_ref f a b m (by omega), hm, rombergSpec_eq_ref]
  congr 1
  apply rombergRef_congr _ _ 30 _ m 0 (by omega)
  intro i hi
  show trapezoidal_solver f a b (shlVal i) = trapezoidal_solver f a b (2 ^ i)
  rw [shlVal_of_le i hi]

/-- Witness for C13 as amended: `x^3` over `[0, 2]` with three levels. -/
theorem romberg_refines_spec_witness :
    (1 : Int) ≤ 3 ∧ (3 : Int) ≤ 31 ∧
    romberg_solver (fun x : ℚ => x ^ 3) 0 2 3
      = some (rombergSpec (fun x : ℚ => x ^ 3) 0 2 0 ((3 : Int) - 1).toNat) :=
  ⟨by decide, by decide, romberg_refines_spec _ 0 2 3 (by decide) (by decide)⟩

/-- Counterexample to C13 as stated: with `max_iter = 32` and the constant integrand `1` over
`[0, 1]` the reference recursion gives `1`, the table a value below `1`, because row 31 of the
first column is computed with `1 << 31 = -2^31` subintervals. -/
theorem romberg_departs_from_spec_at_32 :
    (1 : Int) ≤ 32 ∧
    romberg_solver (fun _ : ℝ => 1) 0 1 32
      ≠ some (rombergSpec (fun _ : ℝ => 1) 0 1 0 ((32 : Int) - 1).toNat) := by
  refine ⟨by decide, ?_⟩
  obtain ⟨v, hv, hlt⟩ := romberg_const_level_32_lt (1 : ℝ) one_pos
  have hspec : rombergSpec (fun _ : ℝ => 1) 0 1 0 ((32 : Int) - 1).toNat = 1 := by
    rw [rombergSpec_eq_ref]
    rw [rombergRef_const _ ((1 : ℝ) * (1 - 0)) ((32 : Int) - 1).toNat
      (fun j _ => trapezoidal_const (1 : ℝ) 0 1 (2 ^ j) (one_le_pow₀ (by norm_num)))
      ((32 : Int) - 1).toNat 0 (by omega)]
    norm_num
  rw [hv, hspec]
  intro hc
  have := Option.some.inj hc
  linarith

/-! ## C20: every access of the Romberg table is safe -/

theorem Table.readWritten_natCast {β : Type} (I : Table (Option β)) (j k : Nat) (x : β)
    (hj : j < I.dim) (hk : k < I.dim) (hx : I.cell j k = some x) :
    I.readWritten (j : Int) (k : Int) = Except.ok x := by
  rw [Table.readWritten, Table.get_natCast I j k hj hk, hx]

theorem Table.write_natCast {β : Type} (I : Table (Option β)) (j k : Nat) (x : β)
    (hj : j < I.dim) (hk : k < I.dim) :
    I.write (j : Int) (k : Int) x
      = Except.ok ⟨I.dim, fun r c => if r = j ∧ c = k then some x else I.cell r c⟩ := by
  rw [Table.write, Table.set_natCast I j k (some x) hj hk]

/-- The checked first loop succeeds for rows up to `30`, marks exactly the cells it fills as
written, and fills them with the trapezoid values. -/
theorem rombergInitChecked_spec (f : α → α) (a b : α) (r : Nat) :
    ∀ (i : Nat) (I : Table (Option α)), i + r ≤ I.dim → i + r ≤ 31 →
      ∃ I1, rombergInitChecked f a b r i I = Except.ok I1 ∧ I1.dim = I.dim ∧
        ∀ x y, I1.cell x y =
          if y = 0 ∧ i ≤ x ∧ x < i + r then some (trapezoidal_solver f a b (shlVal x))
          else I.cell x y := by
  induction r with
  | zero =>
    intro i I _ _
    refine ⟨I, rfl, rfl, fun x y => ?_⟩
    rw [if_neg (by omega)]
  | succ r ih =>
    intro i I h1 h2
    have hw := Table.write_natCast I i 0 (trapezoidal_solver f a b (shlVal i))
      (by omega) (by omega)
    have hn : ¬ (shlVal i < 1) := by
      rw [shlVal_of_le i (by omega)]
      exact not_lt.2 (one_le_pow₀ (by norm_num))
    obtain ⟨I2, e2, d2, c2⟩ := ih (i + 1)
      ⟨I.dim, fun r c => if r = i ∧ c = 0 then some (trapezoidal_solver f a b (shlVal i))
        else I.cell r c⟩ (by simp only []; omega) (by omega)
    refine ⟨I2, ?_, d2, ?_⟩
    · rw [rombergInitChecked, shl1_of_lt i (by omega)]
      simp only []
      rw [if_neg hn, show ((0 : Int)) = ((0 : Nat) : Int) from rfl, hw]
      exact e2
    · intro x y
      rw [c2 x y]
      by_cases hy : y = 0
      · by_cases hx : x = i
        · subst hx; simp [hy]
        · have h3 : (i + 1 ≤ x ∧ x < i + 1 + r) ↔ (i ≤ x ∧ x < i + (r + 1)) := by omega
          simp only [hy, true_and, hx, false_and, if_false, h3]
      · simp [hy]

/-- The checked inner loop succeeds when the cells it reads in column `k` are written, and
fills column `k + 1`, rows `j .. j + r - 1`. -/
theorem rombergRowChecked_spec (k : Nat) (V : Nat → α) (r : Nat) :
    ∀ (j : Nat) (I : Table (Option α)), j + r + (k + 1) ≤ I.dim →
      (∀ x, j ≤ x → x ≤ j + r → I.cell x k = some (V x)) →
      ∃ I1, rombergRowChecked (k + 1) r j I = Except.ok I1 ∧ I1.dim = I.dim ∧
        ∀ x y, I1.cell x y =
          if y = k + 1 ∧ j ≤ x ∧ x < j + r then
            some (((4 : α) ^ (k + 1) * V (x + 1) - V x) / ((4 : α) ^ (k + 1) - 1.0))
          else I.cell x y := by
  induction r with
  | zero =>
    intro j I _ _
    refine ⟨I, rfl, rfl, fun x y => ?_⟩
    rw [if_neg (by omega)]
  | succ r ih =>
    intro j I h1 hV
    have hk : (((k + 1 : Nat) : Int) - 1) = ((k : Nat) : Int) := by push_cast; ring
    have hj : ((j : Nat) : Int) + 1 = ((j + 1 : Nat) : Int) := by push_cast; ring
    have g1 := Table.readWritten_natCast I (j + 1) k (V (j + 1)) (by omega) (by omega)
      (hV (j + 1) (by omega) (by omega))
    have g2 := Table.readWritten_natCast I j k (V j) (by omega) (by omega)
      (hV j (by omega) (by omega))
    have hdiv : ¬ ((4 : α) ^ (k + 1) - 1.0 = 0) := ne_of_gt (four_pow_sub_one_pos k)
    have hw := Table.write_natCast I j (k + 1)
      (((4 : α) ^ (k + 1) * V (j + 1) - V j) / ((4 : α) ^ (k + 1) - 1.0))
      (by omega) (by omega)
    have hk0 : ¬ (k = k + 1) := by omega
    obtain ⟨I2, e2, d2, c2⟩ := ih (j + 1)
      ⟨I.dim, fun r c => if r = j ∧ c = k + 1 then
        some (((4 : α) ^ (k + 1) * V (j + 1) - V j) / ((4 : α) ^ (k + 1) - 1.0))
        else I.cell r c⟩ (by simp only []; omega) (by
        intro x hx1 hx2
        simp only [hk0, and_false, if_false]
        exact hV x (by omega) (by omega))
    refine ⟨I2, ?_, d2, ?_⟩
    · rw [rombergRowChecked, hk, hj, g1, g2]
      simp only []
      rw [if_neg hdiv, hw]
      exact e2
    · intro x y
      rw [c2 x y]
      by_cases hy : y = k + 1
      · by_cases hx : x = j
        · subst hx; simp [hy]
        · have h3 : (j + 1 ≤ x ∧ x < j + 1 + r) ↔ (j ≤ x ∧ x < j + (r + 1)) := by omega
          simp only [hy, true_and, hx, false_and, if_false, h3]
      · simp [hy]

/-- The checked outer loop succeeds and extends, column by column, the region of written cells
that hold the Richardson recursion. -/
theorem rombergColsChecked_spec (m : Nat) (T : Nat → α) (r : Nat) :
    ∀ (k : Nat) (I : Table (Option α)), I.dim = m → k + 1 + r = m →
      (∀ y, y < k + 1 → ∀ x, x + y < m → I.cell x y = some (rombergRef T x y)) →
      ∃ I1, rombergColsChecked (m : Int) r (k + 1) I = Except.ok I1 ∧ I1.dim = m ∧
        ∀ y, y < k + 1 + r → ∀ x, x + y < m → I1.cell x y = some (rombergRef T x y) := by
  induction r with
  | zero =>
    intro k I hd _ hinv
    exact ⟨I, rfl, hd, fun y hy x hx => hinv y (by omega) x hx⟩
  | succ r ih =>
    intro k I hd hkr hinv
    have hcnt : ((m : Int) - ((k + 1 : Nat) : Int)).toNat = m - (k + 1) := by omega
    obtain ⟨I1, e1, d1, c1⟩ := rombergRowChecked_spec k (fun x => rombergRef T x k)
      (m - (k + 1)) 0 I (by omega) (fun x _ hx => hinv k (by omega) x (by omega))
    obtain ⟨I2, e2, d2, c2⟩ := ih (k + 1) I1 (by omega) (by omega) (by
      intro y hy x hx
      rw [c1 x y]
      by_cases hyk : y = k + 1
      · subst hyk
        have hx2 : 0 ≤ x ∧ x < 0 + (m - (k + 1)) := by omega
        rw [if_pos ⟨rfl, hx2⟩]
        rfl
      · rw [if_neg (fun h => hyk h.1)]
        exact hinv y (by omega) x hx)
    refine ⟨I2, ?_, d2, fun y hy x hx => c2 y (by omega) x hx⟩
    rw [rombergColsChecked, hcnt, e1]
    exact e2

/-- With `1 <= max_iter <= 31` the checked solver raises no fault and returns the same entry of
the Richardson recursion as `romberg_solver`. -/
theorem romberg_solver_checked_eq_ref (f : α → α) (a b : α) (m : Nat) (hm : m + 1 ≤ 31) :
    romberg_solver_checked f a b ((m + 1 : Nat) : Int)
      = Except.ok (rombergRef (fun i => trapezoidal_solver f a b (shlVal i)) 0 m) := by
  obtain ⟨I1, e1, d1, c1⟩ := rombergInitChecked_spec f a b (m + 1) 0
    ⟨m + 1, fun _ _ => (none : Option α)⟩ (by simp) (by omega)
  obtain ⟨I2, e2, d2, c2⟩ := rombergColsChecked_spec (m + 1)
    (fun i => trapezoidal_solver f a b (shlVal i)) m 0 I1 d1 (by omega) (by
      intro y hy x hx
      have hy0 : y = 0 := by omega
      subst hy0
      rw [c1 x 0, if_pos ⟨rfl, by omega, by omega⟩]
      rfl)
  have hneg : ¬ (((m + 1 : Nat) : Int) < 0) := by omega
  have h1 : ((m + 1 : Nat) : Int).toNat = m + 1 := by omega
  have h2 : (((m + 1 : Nat) : Int) - 1).toNat = m := by omega
  have h3 : (((m + 1 : Nat) : Int) - 1) = ((m : Nat) : Int) := by omega
  rw [romberg_solver_checked, if_neg hneg, h1, e1]
  simp only []
  rw [h2, e2]
  simp only []
  rw [h3, show (0 : Int) = ((0 : Nat) : Int) from rfl]
  exact Table.readWritten_natCast I2 0 m _ (by omega) (by omega) (c2 m (by omega) 0 (by omega))

/-- C20: for `1 <= max_iter <= 30` the checked solver raises no fault (every read and write is
inside the table, every cell read was written before, every `trapezoidal_solver` call gets
`n >= 1`, no divisor is zero) and returns what `romberg_solver` returns; every `1 << i` is
`2^i >= 1` and every `4^k - 1` is non-zero; for `max_iter = 0` the final read `I[0][-1]` is out
of bounds. -/
theorem romberg_solver_safe :
    (∀ (f : α → α) (a b : α) (max_iter : Int), 1 ≤ max_iter → max_iter ≤ 30 →
      (∃ v, romberg_solver_checked f a b max_iter = Except.ok v ∧
        romberg_solver f a b max_iter = some v) ∧
      (∀ i : Nat, (i : Int) < max_iter → shl1 i = some (2 ^ i) ∧ (1 : Int) ≤ 2 ^ i) ∧
      (∀ k : Nat, 1 ≤ k → (k : Int) < max_iter → (4 : α) ^ k - 1.0 ≠ 0)) ∧
    (∀ (f : α → α) (a b : α),
      romberg_solver_checked f a b 0 = Except.error RombergFault.outOfBounds ∧
      romberg_solver f a b 0 = none) := by
  constructor
  · intro f a b max_iter h1 h30
    obtain ⟨m, rfl⟩ : ∃ m : Nat, max_iter = ((m + 1 : Nat) : Int) :=
      ⟨(max_iter - 1).toNat, by omega⟩
    refine ⟨⟨_, romberg_solver_checked_eq_ref f a b m (by omega),
      romberg_solver_eq_ref f a b m (by omega)⟩, ?_, ?_⟩
    · intro i hi
      rw [shl1_of_lt i (by omega), shlVal_of_le i (by omega)]
      exact ⟨rfl, one_le_pow₀ (by norm_num)⟩
    · intro k hk _
      obtain ⟨k, rfl⟩ : ∃ j, k = j + 1 := ⟨k - 1, by omega⟩
      exact ne_of_gt (four_pow_sub_one_pos k)
  · intro f a b
    constructor
    · simp [romberg_solver_checked, rombergInitChecked, rombergColsChecked, Table.readWritten,
        Table.get]
    · simp [romberg_solver, rombergInit, rombergCols, Table.get]

/-- Witness for C20: three levels. -/
theorem romberg_solver_safe_witness :
    (1 : Int) ≤ 3 ∧ (3 : Int) ≤ 30 ∧
    (∃ v, romberg_solver_checked (fun x : ℚ => x ^ 2) 0 3 3 = Except.ok v ∧
      romberg_solver (fun x : ℚ => x ^ 2) 0 3 3 = some v) :=
  ⟨by decide, by decide,
    (romberg_solver_safe.1 (fun x : ℚ => x ^ 2) 0 3 3 (by decide) (by decide)).1⟩

/-! ## Six Romberg levels keep non-negative integrands non-negative, in exact arithmetic (C12) -/

/-- The trapezoid loop adds the integrand at the grid points `a + (i + t) * h`. -/
theorem trapLoop_eq_sum (f : α → α) (a h : α) (r : Nat) :
    ∀ (i : Int) (s : α), trapLoop f a h r i s
      = s + ∑ t in Finset.range r, f (a + ((i : α) + (t : α)) * h) := by
  induction r with
  | zero => intro i s; simp [trapLoop]
  | succ r ih =>
    intro i s
    rw [trapLoop, ih, Finset.sum_range_succ']
    have e : ∀ t : Nat, a + (((i + 1 : Int) : α) + (t : α)) * h
        = a + ((i : α) + ((t + 1 : Nat) : α)) * h := by
      intro t; push_cast; ring
    simp only [e]
    simp only [Nat.cast_zero, add_zero]
    ring

/-- The trapezoid value with 1 subinterval(s) over `[0, 1]`, written out. -/
theorem trapezoidal_unit_0 (F : α → α) :
    trapezoidal_solver F 0 1 (shlVal 0)
      = 1 / 1 * (1 / 2 * (F 0 + F 1)) := by
  have hn : shlVal 0 = 1 := by decide
  have hr : ((1 : Int) - 1).toNat = 0 := by decide
  rw [hn]
  simp only [trapezoidal_solver, trapLoop_eq_sum, hr]
  norm_num [Finset.sum_range_succ]

/-- The trapezoid value with 2 subinterval(s) over `[0, 1]`, written out. -/
theorem trapezoidal_unit_1 (F : α → α) :
    trapezoidal_solver F 0 1 (shlVal 1)
      = 1 / 2 * (1 / 2 * (F 0 + F 1) + (F (1 / 2))) := by
  have hn : shlVal 1 = 2 := by decide
  have hr : ((2 : Int) - 1).toNat = 1 := by decide
  rw [hn]
  simp only [trapezoidal_solver, trapLoop_eq_sum, hr]
  norm_num [Finset.sum_range_succ]

/-- The trapezoid value with 4 subinterval(s) over `[0, 1]`, written out. -/
theorem trapezoidal_unit_2 (F : α → α) :
    trapezoidal_solver F 0 1 (shlVal 2)
      = 1 / 4 * (1 / 2 * (F 0 + F 1) + (F (1 / 4) + F (1 / 2) + F (3 / 4))) := by
  have hn : shlVal 2 = 4 := by decide
  have hr : ((4 : Int) - 1).toNat = 3 := by decide
  rw [hn]
  simp only [trapezoidal_solver, trapLoop_eq_sum, hr]
  norm_num [Finset.sum_range_succ]

/-- The trapezoid value with 8 subinterval(s) over `[0, 1]`, written out. -/
theorem trapezoidal_unit_3 (F : α → α) :
    trapezoidal_solver F 0 1 (shlVal 3)
      = 1 / 8 * (1 / 2 * (F 0 + F 1) + (F (1 / 8) + F (1 / 4) + F (3 / 8) + F (1 / 2) + F (5 / 8) + F (3 / 4) + F (7 / 8))) := by
  have hn : shlVal 3 = 8 := by decide
  have hr : ((8 : Int) - 1).toNat = 7 := by decide
  rw [hn]
  simp only [trapezoidal_solver, trapLoop_eq_sum, hr]
  norm_num [Finset.sum_range_succ]

/-- The trapezoid value with 16 subinterval(s) over `[0, 1]`, written out. -/
theorem trapezoidal_unit_4 (F : α → α) :
    trapezoidal_solver F 0 1 (shlVal 4)
      = 1 / 16 * (1 / 2 * (F 0 + F 1) + (F (1 / 16) + F (1 / 8) + F (3 / 16) + F (1 / 4) + F (5 / 16) + F (3 / 8) + F (7 / 16) + F (1 / 2) + F (9 / 16) + F (5 / 8) + F (11 / 16) + F (3 / 4) + F (13 / 16) + F (7 / 8) + F (15 / 16))) := by
  have hn : shlVal 4 = 16 := by decide
  have hr : ((16 : Int) - 1).toNat = 15 := by decide
  rw [hn]
  simp only [trapezoidal_solver, trapLoop_eq_sum, hr]
  norm_num [Finset.sum_range_succ]

/-- The trapezoid value with 32 subinterval(s) over `[0, 1]`, written out. -/
theorem trapezoidal_unit_5 (F : α → α) :
    trapezoidal_solver F 0 1 (shlVal 5)
      = 1 / 32 * (1 / 2 * (F 0 + F 1) + (F (1 / 32) + F (1 / 16) + F (3 / 32) + F (1 / 8) + F (5 / 32) + F (3 / 16) + F (7 / 32) + F (1 / 4) + F (9 / 32) + F (5 / 16) + F (11 / 32) + F (3 / 8) + F (13 / 32) + F (7 / 16) + F (15 / 32) + F (1 / 2) + F (17 / 32) + F (9 / 16) + F (19 / 32) + F (5 / 8) + F (21 / 32) + F (11 / 16) + F (23 / 32) + F (3 / 4) + F (25 / 32) + F (13 / 16) + F (27 / 32) + F (7 / 8) + F (29 / 32) + F (15 / 16) + F (31 / 32))) := by
  have hn : shlVal 5 = 32 := by decide
  have hr : ((32 : Int) - 1).toNat = 31 := by decide
  rw [hn]
  simp only [trapezoidal_solver, trapLoop_eq_sum, hr]
  norm_num [Finset.sum_range_succ]

/-- Six Romberg levels over `[0, 1]` weigh the 33 grid values with positive weights. -/
theorem romberg_six_unit_nonneg (F : α → α) (hF : ∀ t, 0 ≤ F t) :
    0 ≤ rombergRef (fun i => trapezoidal_solver F 0 1 (shlVal i)) 0 5 := by
  simp only [rombergRef, Nat.zero_add, Nat.reduceAdd, trapezoidal_unit_0, trapezoidal_unit_1, trapezoidal_unit_2,
    trapezoidal_unit_3, trapezoidal_unit_4, trapezoidal_unit_5]
  norm_num
  linarith [hF 0, hF (1 / 32), hF (1 / 16), hF (3 / 32), hF (1 / 8), hF (5 / 32), hF (3 / 16), hF (7 / 32), hF (1 / 4), hF (9 / 32), hF (5 / 16), hF (11 / 32), hF (3 / 8), hF (13 / 32), hF (7 / 16), hF (15 / 32), hF (1 / 2), hF (17 / 32), hF (9 / 16), hF (19 / 32), hF (5 / 8), hF (21 / 32), hF (11 / 16), hF (23 / 32), hF (3 / 4), hF (25 / 32), hF (13 / 16), hF (27 / 32), hF (7 / 8), hF (29 / 32), hF (15 / 16), hF (31 / 32), hF 1]

/-- The trapezoid loop over `[a, b]` is the loop over `[0, 1]` for the integrand moved to
`[0, 1]`. -/
theorem trapLoop_affine (f : α → α) (a b : α) (n : Int) (r : Nat) :
    ∀ (i : Int) (s : α), trapLoop f a ((b - a) / (n : α)) r i s
      = trapLoop (fun t => f (a + t * (b - a))) 0 ((1 - 0) / (n : α)) r i s := by
  induction r with
  | zero => intro i s; rfl
  | succ r ih =>
    intro i s
    rw [trapLoop, trapLoop, ih]
    have e : a + (i : α) * ((b - a) / (n : α))
        = a + (0 + (i : α) * ((1 - 0) / (n : α))) * (b - a) := by ring
    rw [e]

/-- The trapezoidal rule over `[a, b]` is `b - a` times the rule over `[0, 1]` for the integrand
moved to `[0, 1]`. -/
theorem trapezoidal_affine (f : α → α) (a b : α) (n : Int) :
    trapezoidal_solver f a b n
      = (b - a) * trapezoidal_solver (fun t => f (a + t * (b - a))) 0 1 n := by
  have e0 : a + 0 * (b - a) = a := by ring
  have e1 : a + 1 * (b - a) = b := by ring
  simp only [trapezoidal_solver]
  rw [trapLoop_affine f a b n, e0, e1]
  ring

/-- The Richardson recursion is linear in the first column. -/
theorem rombergRef_smul (T : Nat → α) (c : α) (k : Nat) :
    ∀ j, rombergRef (fun i => c * T i) j k = c * rombergRef T j k := by
  induction k with
  | zero => intro j; rfl
  | succ k ih =>
    intro j
    rw [rombergRef, rombergRef, ih, ih]
    ring

/-- With non-negative coefficients the power is non-negative, guard included. -/
theorem power_consumption_nonneg (v c1 c2 : α) (h1 : 0 ≤ c1) (h2 : 0 ≤ c2) :
    0 ≤ power_consumption v c1 c2 := by
  by_cases hv : v ≤ 1e-9
  · simp [power_consumption, hv]
  · have hv1 : 1e-9 < v := not_le.1 hv
    have hv0 : 0 < v := pos_of_gt_eps v hv1
    rw [power_consumption_of_gt _ _ _ hv1]
    positivity

/-- Six Romberg levels of a non-negative integrand over `[a, b]` with `a <= b`. -/
theorem romberg_six_nonneg_aux (f : α → α) (a b : α) (hf : ∀ x, 0 ≤ f x) (hab : a ≤ b) :
    ∃ v, romberg_solver f a b 6 = some v ∧ 0 ≤ v := by
  have h := romberg_solver_eq_ref f a b 5 (by omega)
  have h6 : ((5 + 1 : Nat) : Int) = 6 := by norm_num
  rw [h6] at h
  refine ⟨_, h, ?_⟩
  have hT : (fun i => trapezoidal_solver f a b (shlVal i))
      = fun i => (b - a) * trapezoidal_solver (fun t => f (a + t * (b - a))) 0 1 (shlVal i) := by
    funext i
    exact trapezoidal_affine f a b (shlVal i)
  rw [hT, rombergRef_smul]
  exact mul_nonneg (by linarith)
    (romberg_six_unit_nonneg (fun t => f (a + t * (b - a))) (fun t => hf _))

/-- The statement of C12 read in exact real arithmetic: with the default six levels,
`romberg_solver` returns a value `>= 0` for every integrand that is `>= 0` everywhere and every
`a <= b`; in particular for `t -> power_consumption(v(t), c1, c2)` over `[0, 10]` with
`c1, c2 >= 0` and any velocity profile `v`, and for the energy computed by `main`.  In binary64
the sum `f(a) + f(b)` can overflow and the extrapolation then yields `NaN`, which this reading
of `double` does not see. -/
theorem romberg_energy_nonneg :
    (∀ (f : α → α) (a b : α), (∀ x, 0 ≤ f x) → a ≤ b →
      ∃ v, romberg_solver f a b romberg_default_max_iter = some v ∧ 0 ≤ v) ∧
    (∀ (velocity : α → α) (c1 c2 : α), 0 ≤ c1 → 0 ≤ c2 →
      ∃ v, romberg_solver (fun t => power_consumption (velocity t) c1 c2) 0 10
        romberg_default_max_iter = some v ∧ 0 ≤ v) ∧
    (∀ (sin : α → α) (pi c1 c2 v_opt : α), 0 ≤ c1 → 0 ≤ c2 →
      ∃ v, energy_romberg sin pi c1 c2 v_opt = some v ∧ 0 ≤ v) := by
  refine ⟨?_, ?_, ?_⟩
  · intro f a b hf hab
    exact romberg_six_nonneg_aux f a b hf hab
  · intro velocity c1 c2 h1 h2
    exact romberg_six_nonneg_aux _ 0 10 (fun t => power_consumption_nonneg _ c1 c2 h1 h2)
      (by norm_num)
  · intro sin pi c1 c2 v_opt h1 h2
    exact romberg_six_nonneg_aux _ 0 T_maneuver
      (fun t => power_consumption_nonneg _ c1 c2 h1 h2) (by simp only [T_maneuver]; norm_num)

/-- An instance of `romberg_energy_nonneg`: `x^2` over `[-1, 2]`. -/
theorem romberg_energy_nonneg_witness :
    (∀ x : ℚ, 0 ≤ (fun y : ℚ => y ^ 2) x) ∧ (-1 : ℚ) ≤ 2 ∧
    ∃ v, romberg_solver (fun y : ℚ => y ^ 2) (-1) 2 romberg_default_max_iter = some v ∧ 0 ≤ v :=
  ⟨fun x => sq_nonneg x, by norm_num,
    romberg_energy_nonneg.1 (fun y : ℚ => y ^ 2) (-1) 2 (fun x => sq_nonneg x) (by norm_num)⟩

end CombinedAnalysis
